import Mathlib

/-!
# ThreadPool: a shallow embedding of `threadpool.h` / `threadpool.cc`

The C++ objects are embedded as Lean structures and their member functions as
functions on those structures.

* `Any` (threadpool.h 13-61) is a nullable box holding a runtime type tag and
  a value of that type; `dynamic_cast<Derived<T>*>` is the comparison of tags.
* `Semaphore`, `Result`, `Task` (threadpool.h 64-166, threadpool.cc 246-289)
  live in a `Heap`: raw pointers (`Result *`, `shared_ptr<Task>`) are indices.
* `ThreadPool` (threadpool.h 170-216) keeps the source's fields.  The three
  `atomic_uint` counters are naturals reduced modulo `2^32`, `size_t` values
  are naturals, `int` values are integers, `(size_t)` of an `int` is reduction
  modulo `2^64`.
* The code guarded by `taskQueueMtx_` is atomic between two points at which the
  mutex is released.  `condition_variable::wait` and `wait_for` release the
  mutex, so a worker thread has a program counter (`Pc`) that records where it
  is parked, and every other thread may move while it is parked.
* What the environment decides is an argument of the move: the value
  `wait_for` returns and the number of seconds measured since `lastTime`.
* A call of `start`, of a setter or of `submitTask` is one move; `submitTask`
  is taken at the moment its `wait_for` returns with the mutex held.
* Task pointers are never null (`submitTask` dereferences its argument), so the
  test `task != nullptr` of `threadFunc` always succeeds; `int` overflow of
  `Thread::generateId_` and of `Semaphore::resLimit_` is left out.
-/

namespace ThreadPoolModel

/-! ## Any -/

/-- Exception `std::bad_cast`. -/
inductive BadCast where
  | bad_cast
deriving DecidableEq, Repr

/-- Class `Any`: `base_` is `nullptr` (`none`) or points to a `Derived<T>`
holding `data_ : T`; `τ` is the set of C++ types and `El T` the values of `T`. -/
structure Any (τ : Type) (El : τ → Type) where
  base_ : Option (Sigma El)

/-- The C++ types the library itself stores in an `Any`: `Result::get` returns
the string literal `""`, a `const char *`. -/
class CppTypes (τ : Type) (El : τ → Type) where
  constCharPtr : τ
  emptyLiteral : El constCharPtr

section AnyOps
variable {τ : Type} {El : τ → Type}

/-- Constructor `Any() = default`: `base_` is null. -/
def Any.default : Any τ El := ⟨none⟩

/-- Constructor `template <typename T> Any(T data)`:
`base_(std::make_unique<Derived<T>>(data))`. -/
def Any.ofData (T : τ) (data : El T) : Any τ El := ⟨some ⟨T, data⟩⟩

/-- Member `template <typename T> T cast_()`: throws `bad_cast` when `base_` is
null or when the dynamic type of `*base_` is not `Derived<T>`. -/
def Any.cast_ [DecidableEq τ] (a : Any τ El) (T : τ) : Except BadCast (El T) :=
  match a.base_ with
  | none => Except.error BadCast.bad_cast
  | some ⟨U, data_⟩ =>
    if h : U = T then Except.ok (h ▸ data_) else Except.error BadCast.bad_cast

end AnyOps

/-! ## Semaphore -/

/-- Class `Semaphore`: `resLimit_` is an `int`, `isExit_` an `atomic_bool`. -/
structure Semaphore where
  resLimit_ : Int
  isExit_ : Bool
deriving DecidableEq, Repr

/-- Constructor `Semaphore(int resLimit = 0)`. -/
def Semaphore.ctor (resLimit : Int) : Semaphore := ⟨resLimit, false⟩

/-- Member `wait()`: returns at once when `isExit_`; otherwise blocks until
`resLimit_ > 0` and decrements.  `none` means the caller is blocked. -/
def Semaphore.wait (s : Semaphore) : Option Semaphore :=
  if s.isExit_ then some s
  else if s.resLimit_ > 0 then some { s with resLimit_ := s.resLimit_ - 1 }
  else none

/-- Member `post()`: returns at once when `isExit_`; otherwise increments
`resLimit_` (and notifies). -/
def Semaphore.post (s : Semaphore) : Semaphore :=
  if s.isExit_ then s else { s with resLimit_ := s.resLimit_ + 1 }

/-! ## Result and Task -/

/-- Class `Result`; `task_` is the index of the task in the heap. -/
structure Result (τ : Type) (El : τ → Type) where
  any_ : Any τ El
  sem_ : Semaphore
  task_ : Nat
  isValid_ : Bool

/-- What one call of the virtual `Any run()` of a task does: return a value or
leave by an exception. -/
inductive RunOutcome (τ : Type) (El : τ → Type) where
  | returns (v : Any τ El)
  | throws

/-- Class `Task`: the override of `run()` and the raw pointer `result_`
(`none` is `nullptr`, `some r` the index of a `Result` in the heap). -/
structure Task (τ : Type) (El : τ → Type) where
  run : RunOutcome τ El
  result_ : Option Nat

/-- The objects reachable through pointers: `shared_ptr<Task>` and `Result *`
are positions in these lists.  Objects are never deallocated here. -/
structure Heap (τ : Type) (El : τ → Type) where
  tasks : List (Task τ El)
  results : List (Result τ El)

section HeapOps
variable {τ : Type} {El : τ → Type}

/-- Constructor `Task::Task() : result_(nullptr)`, for a subclass whose `run()`
behaves as `run`. -/
def Task.ctor (run : RunOutcome τ El) : Task τ El := ⟨run, none⟩

/-- Member `Task::setResult(Result *result)`: `result_ = result`, on the task at
`taskPtr`. -/
def Task.setResult (h : Heap τ El) (taskPtr : Nat) (result : Nat) : Heap τ El :=
  match h.tasks[taskPtr]? with
  | some t => { h with tasks := h.tasks.set taskPtr { t with result_ := some result } }
  | none => h

/-- Constructor `Result::Result(taskPtr, isValid)`: the new object has an empty
`any_`, a semaphore with count 0, and calls `task_->setResult(this)`.  Returns
the heap and the address of the new `Result`. -/
def Result.ctor (h : Heap τ El) (taskPtr : Nat) (isValid : Bool) : Heap τ El × Nat :=
  let this := h.results.length
  let h1 : Heap τ El :=
    { h with results := h.results ++ [⟨Any.default, Semaphore.ctor 0, taskPtr, isValid⟩] }
  (Task.setResult h1 taskPtr this, this)

/-- Member `Result::setVal(Any any)`: `any_ = std::move(any); sem_.post();`. -/
def Result.setVal (h : Heap τ El) (this : Nat) (any : Any τ El) : Heap τ El :=
  match h.results[this]? with
  | some r => { h with results := h.results.set this { r with any_ := any, sem_ := r.sem_.post } }
  | none => h

/-- Member `Result::get()`: an invalid result returns `Any("")` at once;
otherwise `sem_.wait()` and then `std::move(any_)`, which leaves `any_` null.
`none` means the caller is blocked in `sem_.wait()`. -/
def Result.get [CppTypes τ El] (h : Heap τ El) (this : Nat) : Option (Heap τ El × Any τ El) :=
  match h.results[this]? with
  | some r =>
    if ¬ r.isValid_ then
      some (h, Any.ofData (CppTypes.constCharPtr El) CppTypes.emptyLiteral)
    else
      match r.sem_.wait with
      | some sem =>
        some ({ h with results := h.results.set this { r with sem_ := sem, any_ := Any.default } },
              r.any_)
      | none => none
  | none => none

/-- Member `Task::exec()`: `if (result_ != nullptr) result_->setVal(run());`.
An exception thrown by `run()` leaves `exec` (`Except.error`): there is no
handler. -/
def Task.exec (h : Heap τ El) (taskPtr : Nat) : Except Unit (Heap τ El) :=
  match h.tasks[taskPtr]? with
  | some t =>
    match t.result_ with
    | some result_ =>
      match t.run with
      | RunOutcome.returns v => Except.ok (Result.setVal h result_ v)
      | RunOutcome.throws => Except.error ()
    | none => Except.ok h
  | none => Except.ok h

end HeapOps

/-! ## ThreadPool -/

/-- Constant `TASK_QUEUE_MAX_THRESH_HOLD` (threadpool.cc 5). -/
def TASK_QUEUE_MAX_THRESH_HOLD : Int := 1000000

/-- Constant `THREAD_MAX_SIZE` (threadpool.cc 6). -/
def THREAD_MAX_SIZE : Nat := 10

/-- Constant `THREAD_MAX_IDLE_TIME` (threadpool.cc 7), in seconds. -/
def THREAD_MAX_IDLE_TIME : Int := 60

/-- Number of values of `unsigned int` (the `atomic_uint` counters). -/
def UINT_SIZE : Nat := 2 ^ 32

/-- Number of values of `size_t`. -/
def SIZE_T_SIZE : Nat := 2 ^ 64

/-- Operator `++` on an `atomic_uint` holding `x < 2^32`: `2^32 - 1` wraps
to 0, that is `(x + 1) mod 2^32`. -/
def uintInc (x : Nat) : Nat := if x + 1 = UINT_SIZE then 0 else x + 1

/-- Operator `--` on an `atomic_uint` holding `x < 2^32`: 0 wraps to
`2^32 - 1`, that is `(x + 2^32 - 1) mod 2^32`. -/
def uintDec (x : Nat) : Nat := if x = 0 then UINT_SIZE - 1 else x - 1

/-- Conversion of an `int` to `unsigned int` (`curThreadSize_ = initThreadSize`). -/
def toUint (x : Int) : Nat := (x % (UINT_SIZE : Int)).toNat

/-- Conversion of an `int` to `size_t` (`(size_t)(taskQueueMaxThreshHold_)`,
`initThreadSize_ = initThreadSize`). -/
def toSizeT (x : Int) : Nat := (x % (SIZE_T_SIZE : Int)).toNat

/-- Enum `PoolMode`. -/
inductive PoolMode where
  | MODE_FIXED
  | MODE_CACHED
deriving DecidableEq, Repr

/-- Enum `std::cv_status`, the value `wait_for` returns. -/
inductive CvStatus where
  | no_timeout
  | timeout
deriving DecidableEq, Repr

/-- Class `ThreadPool` (threadpool.h 195-215).  `threads_` keeps the keys of the
`unordered_map` (a `Thread` holds nothing but its id and the bound
`threadFunc`); `taskQueue_` holds task pointers, front first.  The mutex and
the condition variables are in the step structure below. -/
structure ThreadPool where
  threads_ : List Nat
  initThreadSize_ : Nat
  maxThreadSize_ : Nat
  idleThreadSize_ : Nat
  curThreadSize_ : Nat
  taskQueue_ : List Nat
  taskSize_ : Nat
  taskQueueMaxThreshHold_ : Int
  poolMode_ : PoolMode
  isPoolRunning_ : Bool
deriving DecidableEq, Repr

/-- Constructor `ThreadPool::ThreadPool()` (threadpool.cc 16-24). -/
def ThreadPool.ctor : ThreadPool :=
  { threads_ := []
    initThreadSize_ := 0
    maxThreadSize_ := THREAD_MAX_SIZE
    idleThreadSize_ := 0
    curThreadSize_ := 0
    taskQueue_ := []
    taskSize_ := 0
    taskQueueMaxThreshHold_ := TASK_QUEUE_MAX_THRESH_HOLD
    poolMode_ := PoolMode.MODE_FIXED
    isPoolRunning_ := false }

/-- Member `checkRunningState()` (threadpool.cc 57-60). -/
def ThreadPool.checkRunningState (s : ThreadPool) : Bool := s.isPoolRunning_

/-- Member `setMode(PoolMode mode)` (threadpool.cc 37-45); the line written to
`std::cerr` is not part of the state. -/
def ThreadPool.setMode (s : ThreadPool) (mode : PoolMode) : ThreadPool :=
  if s.checkRunningState then s else { s with poolMode_ := mode }

/-- Member `setTaskQueueMaxThreshHold(int threshHold)` (threadpool.cc 47-55). -/
def ThreadPool.setTaskQueueMaxThreshHold (s : ThreadPool) (threshHold : Int) : ThreadPool :=
  if s.checkRunningState then s else { s with taskQueueMaxThreshHold_ := threshHold }

/-- Member `setMaxThreadSize(size_t maxThreadSize)` (threadpool.cc 62-73). -/
def ThreadPool.setMaxThreadSize (s : ThreadPool) (maxThreadSize : Nat) : ThreadPool :=
  if s.checkRunningState then s
  else if s.poolMode_ = PoolMode.MODE_CACHED then { s with maxThreadSize_ := maxThreadSize }
  else s

/-- Call `threads_.emplace(threadId, ...)`: nothing is inserted when the key is
already in the map. -/
def emplace (threads_ : List Nat) (threadId : Nat) : List Nat :=
  if threadId ∈ threads_ then threads_ else threads_ ++ [threadId]

/-- Where a thread running `threadFunc` stands.  It moves atomically from one
of these points to the next.
* `atLock`: at line 146, about to take `taskQueueMtx_` (thread start, and after
  line 223);
* `inWaitFor`: parked in `notEmpty_.wait_for` (line 166), mutex released;
* `inWait`: parked in `notEmpty_.wait` (line 183), mutex released;
* `holding task`: at line 217 with the dequeued `task`, mutex released;
* `exited`: returned at line 161 (pool no longer running);
* `retired`: returned at line 176 (idle for too long);
* `threw`: an exception of `task->exec()` left `threadFunc`. -/
inductive Pc where
  | atLock
  | inWaitFor
  | inWait
  | holding (task : Nat)
  | exited
  | retired
  | threw
deriving DecidableEq, Repr

/-- An operating-system thread created by `Thread::start()`: the `threadId`
passed to `threadFunc` and where the thread stands. -/
structure OsThread where
  threadId : Nat
  pc : Pc
deriving DecidableEq, Repr

/-- Member `threadFunc`, lines 152-212: from the test of
`while (taskQueue_.size() == 0)`, with the mutex held, up to the next point
where the mutex is released.  With an empty queue the thread returns (pool not
running) or parks in `wait_for` (cached mode) or `wait` (fixed mode); with a
task in the queue it takes the front one. -/
def ThreadPool.whileQueueEmpty (s : ThreadPool) (threadId : Nat) : ThreadPool × Pc :=
  match s.taskQueue_ with
  | [] =>
    if ¬ s.isPoolRunning_ then
      ({ s with threads_ := s.threads_.erase threadId }, Pc.exited)
    else if s.poolMode_ = PoolMode.MODE_CACHED then (s, Pc.inWaitFor)
    else (s, Pc.inWait)
  | task :: rest =>
    ({ s with
        idleThreadSize_ := uintDec s.idleThreadSize_
        taskQueue_ := rest
        taskSize_ := uintDec s.taskSize_ },
     Pc.holding task)

/-- Member `threadFunc`, lines 166-179 and on: the thread leaves `wait_for`
holding the mutex again; `status` is what `wait_for` returned and `idleSecs`
the value of `duration_cast<seconds>(now - lastTime).count()`.  It retires, or
goes round the `while` once more. -/
def ThreadPool.afterWaitFor (s : ThreadPool) (threadId : Nat) (status : CvStatus)
    (idleSecs : Int) : ThreadPool × Pc :=
  if status = CvStatus.timeout then
    if idleSecs ≥ THREAD_MAX_IDLE_TIME ∧ s.curThreadSize_ > s.initThreadSize_ then
      ({ s with
          threads_ := s.threads_.erase threadId
          curThreadSize_ := uintDec s.curThreadSize_
          idleThreadSize_ := uintDec s.idleThreadSize_ },
       Pc.retired)
    else s.whileQueueEmpty threadId
  else s.whileQueueEmpty threadId

/-- History of a run (not program state): the tasks `submitTask` put into the
queue, the tasks workers took out of it, and the tasks on which `exec()` was
called, each in the order in which it happened. -/
structure History where
  accepted : List Nat
  dequeued : List Nat
  executed : List Nat
deriving DecidableEq, Repr

/-- The whole program: the pool, the static `Thread::generateId_`, the
operating-system threads running `threadFunc`, the heap of tasks and results,
whether `~ThreadPool` has been entered, whether `std::terminate` was called
(an exception left a thread), and the history. -/
structure World (τ : Type) (El : τ → Type) where
  pool : ThreadPool
  generateId_ : Nat
  osThreads : List OsThread
  heap : Heap τ El
  destructing : Bool
  terminated : Bool
  hist : History

section WorldOps
variable {τ : Type} {El : τ → Type}

/-- A fresh program: `ThreadPool pool;` and the tasks the caller has made with
`std::make_shared`. -/
def World.init (tasks : List (RunOutcome τ El)) : World τ El :=
  { pool := ThreadPool.ctor
    generateId_ := 0
    osThreads := []
    heap := ⟨tasks.map Task.ctor, []⟩
    destructing := false
    terminated := false
    hist := ⟨[], [], []⟩ }

/-- Member `submitTask` (threadpool.cc 76-112), at the moment `wait_for` returns
with the mutex held: `wait_for` returns the value of the predicate
`taskQueue_.size() < (size_t) taskQueueMaxThreshHold_`, and returns `false`
only after the one-second timeout.  Returns the new state and the address of
the returned `Result`. -/
def World.submitTask (w : World τ El) (taskPtr : Nat) : World τ El × Nat :=
  if ¬ (w.pool.taskQueue_.length < toSizeT w.pool.taskQueueMaxThreshHold_) then
    let res := Result.ctor w.heap taskPtr false
    ({ w with heap := res.1 }, res.2)
  else
    let s1 : ThreadPool :=
      { w.pool with
          taskQueue_ := w.pool.taskQueue_ ++ [taskPtr]
          taskSize_ := uintInc w.pool.taskSize_ }
    let hist : History := { w.hist with accepted := w.hist.accepted ++ [taskPtr] }
    if s1.poolMode_ = PoolMode.MODE_CACHED ∧ s1.taskSize_ > s1.idleThreadSize_
        ∧ s1.curThreadSize_ < s1.maxThreadSize_ then
      let threadId := w.generateId_
      let s2 : ThreadPool :=
        { s1 with
            threads_ := emplace s1.threads_ threadId
            curThreadSize_ := uintInc s1.curThreadSize_
            idleThreadSize_ := uintInc s1.idleThreadSize_ }
      let res := Result.ctor w.heap taskPtr true
      ({ w with
          pool := s2
          generateId_ := w.generateId_ + 1
          osThreads := w.osThreads ++ [⟨threadId, Pc.atLock⟩]
          heap := res.1
          hist := hist }, res.2)
    else
      let res := Result.ctor w.heap taskPtr true
      ({ w with pool := s1, heap := res.1, hist := hist }, res.2)

/-- Member `start(int initThreadSize)` (threadpool.cc 115-136): `initThreadSize`
new `Thread` objects get the next ids and are put into `threads_`; then every
thread in `threads_` is started and `idleThreadSize_` incremented once for
each. -/
def World.start (w : World τ El) (initThreadSize : Int) : World τ El :=
  let initThreadSize_ := toSizeT initThreadSize
  let ids := List.range' w.generateId_ initThreadSize_
  let threads_ := ids.foldl emplace w.pool.threads_
  { w with
      pool :=
        { w.pool with
            isPoolRunning_ := true
            initThreadSize_ := initThreadSize_
            curThreadSize_ := toUint initThreadSize
            threads_ := threads_
            idleThreadSize_ := threads_.foldl (fun idle _ => uintInc idle) w.pool.idleThreadSize_ }
      generateId_ := w.generateId_ + initThreadSize_
      osThreads := w.osThreads ++ threads_.map (fun threadId => ⟨threadId, Pc.atLock⟩) }

/-- Destructor `~ThreadPool` (threadpool.cc 27-35), its first statement:
`isPoolRunning_ = false`; it then waits until `threads_` is empty. -/
def World.destroy (w : World τ El) : World τ El :=
  { w with pool := { w.pool with isPoolRunning_ := false }, destructing := true }

/-- Put the result of a locked section of `threadFunc` back: thread `i` gets
its new program counter, and a task taken from the queue is recorded. -/
def World.afterLocked (w : World τ El) (i : Nat) (t : OsThread) (r : ThreadPool × Pc) :
    World τ El :=
  { w with
      pool := r.1
      osThreads := w.osThreads.set i { t with pc := r.2 }
      hist :=
        match r.2 with
        | Pc.holding task => { w.hist with dequeued := w.hist.dequeued ++ [task] }
        | _ => w.hist }

/-- Member `threadFunc`, lines 217-223, for thread `i` holding `task`:
`task->exec()`, then `idleThreadSize_++` and back to the top of the loop.  An
exception of `exec()` leaves `threadFunc`, the thread function of a
`std::thread`, so `std::terminate` is called. -/
def World.runTask (w : World τ El) (i : Nat) (t : OsThread) (task : Nat) : World τ El :=
  let hist : History := { w.hist with executed := w.hist.executed ++ [task] }
  match Task.exec w.heap task with
  | Except.ok heap =>
    { w with
        heap := heap
        pool := { w.pool with idleThreadSize_ := uintInc w.pool.idleThreadSize_ }
        osThreads := w.osThreads.set i { t with pc := Pc.atLock }
        hist := hist }
  | Except.error _ =>
    { w with
        osThreads := w.osThreads.set i { t with pc := Pc.threw }
        terminated := true
        hist := hist }

/-- The moves of the program.  The first six are calls made by the owner of the
pool; the last three are moves of the operating-system thread at position `i`
of `osThreads`. -/
inductive Action where
  | setMode (mode : PoolMode)
  | setTaskQueueMaxThreshHold (threshHold : Int)
  | setMaxThreadSize (maxThreadSize : Nat)
  | start (initThreadSize : Int)
  | submitTask (taskPtr : Nat)
  | destroy
  | lock (i : Nat)
  | wake (i : Nat) (status : CvStatus) (idleSecs : Int)
  | runTask (i : Nat)
deriving DecidableEq, Repr

/-- One move.  `none`: the move is not possible in this state (the process
was terminated, a member is called on a pool being destroyed, or the thread
is not at the point the move starts from). -/
def World.step (w : World τ El) : Action → Option (World τ El)
  | Action.setMode mode =>
    if w.terminated ∨ w.destructing then none
    else some { w with pool := w.pool.setMode mode }
  | Action.setTaskQueueMaxThreshHold threshHold =>
    if w.terminated ∨ w.destructing then none
    else some { w with pool := w.pool.setTaskQueueMaxThreshHold threshHold }
  | Action.setMaxThreadSize maxThreadSize =>
    if w.terminated ∨ w.destructing then none
    else some { w with pool := w.pool.setMaxThreadSize maxThreadSize }
  | Action.start initThreadSize =>
    if w.terminated ∨ w.destructing then none else some (w.start initThreadSize)
  | Action.submitTask taskPtr =>
    if w.terminated ∨ w.destructing then none else some (w.submitTask taskPtr).1
  | Action.destroy =>
    if w.terminated ∨ w.destructing then none else some w.destroy
  | Action.lock i =>
    if w.terminated then none
    else
      match w.osThreads[i]? with
      | some t =>
        match t.pc with
        | Pc.atLock => some (w.afterLocked i t (w.pool.whileQueueEmpty t.threadId))
        | _ => none
      | none => none
  | Action.wake i status idleSecs =>
    if w.terminated then none
    else
      match w.osThreads[i]? with
      | some t =>
        match t.pc with
        | Pc.inWaitFor =>
          some (w.afterLocked i t (w.pool.afterWaitFor t.threadId status idleSecs))
        | Pc.inWait => some (w.afterLocked i t (w.pool.whileQueueEmpty t.threadId))
        | _ => none
      | none => none
  | Action.runTask i =>
    if w.terminated then none
    else
      match w.osThreads[i]? with
      | some t =>
        match t.pc with
        | Pc.holding task => some (w.runTask i t task)
        | _ => none
      | none => none

/-- A run: the moves of a list, one after the other. -/
def World.run (w : World τ El) : List Action → Option (World τ El)
  | [] => some w
  | a :: as =>
    match w.step a with
    | some w1 => World.run w1 as
    | none => none

end WorldOps

/-! ## The caller of `main.cpp` -/

/-- The C++ types used by `main.cpp`: `uLong` (what `SimpleTask::run` returns)
and `const char *`. -/
inductive MainType where
  | uLong
  | constCharPtr
deriving DecidableEq, Repr

/-- Values of the types of `main.cpp`. -/
def MainType.El : MainType → Type
  | MainType.uLong => Nat
  | MainType.constCharPtr => String

instance : CppTypes MainType MainType.El where
  constCharPtr := MainType.constCharPtr
  emptyLiteral := ""

/-- A task whose `run()` returns the `uLong` value `v`. -/
def returnsULong (v : Nat) : RunOutcome MainType MainType.El :=
  RunOutcome.returns (Any.ofData MainType.uLong v)

/-! ## Concrete programs -/

/-- Two tasks `A` and `B` whose `run()` returns 1 and 2. -/
def worldAB : World MainType MainType.El := World.init [returnsULong 1, returnsULong 2]

/-- Three tasks returning 1, 2, 3. -/
def world123 : World MainType MainType.El :=
  World.init [returnsULong 1, returnsULong 2, returnsULong 3]

/-- A task whose `run()` throws, and a second task returning 2. -/
def worldThrow : World MainType MainType.El := World.init [RunOutcome.throws, returnsULong 2]

/-- One task, on a pool on which `setTaskQueueMaxThreshHold(-1)` was called. -/
def worldNegThreshold : World MainType MainType.El :=
  { World.init [returnsULong 1] with pool := ThreadPool.ctor.setTaskQueueMaxThreshHold (-1) }

/-- Three tasks, on a pool on which `setTaskQueueMaxThreshHold(2)` was called and
two tasks were submitted; no thread was started. -/
def worldFull : World MainType MainType.El :=
  (({ world123 with pool := ThreadPool.ctor.setTaskQueueMaxThreshHold 2 }.submitTask 0).1.submitTask
    1).1

/-- One worker, `A` and `B` submitted, the worker has taken `A`. -/
def actsTakeA : List Action :=
  [Action.start 1, Action.submitTask 0, Action.submitTask 1, Action.lock 0]

/-- One worker, two tasks submitted, the worker runs the first. -/
def actsRunFirst : List Action :=
  [Action.start 1, Action.submitTask 0, Action.submitTask 1, Action.lock 0, Action.runTask 0]

/-- The heap after `start(1)` and the submission of `A` and `B`. -/
def heapAB : Heap MainType MainType.El :=
  (((worldAB.start 1).submitTask 0).1.submitTask 1).1.heap

/-- The program `worldThrow` after `actsTakeA`: the worker holds the throwing
task. -/
def worldThrowHeld : World MainType MainType.El :=
  let w := (((worldThrow.start 1).submitTask 0).1.submitTask 1).1
  w.afterLocked 0 ⟨0, Pc.atLock⟩ (w.pool.whileQueueEmpty 0)

/-- One worker runs `A`, then `B`. -/
def actsRunAB : List Action :=
  [Action.start 1, Action.submitTask 0, Action.submitTask 1, Action.lock 0, Action.runTask 0,
   Action.lock 0, Action.runTask 0]

/-- A burst: the tasks of the list are submitted one after the other, and no
other thread moves in between. -/
def World.submitAll {τ : Type} {El : τ → Type} (w : World τ El) : List Nat → World τ El
  | [] => w
  | taskPtr :: rest => World.submitAll (w.submitTask taskPtr).1 rest

/-- The program of `main.cpp` up to `pool.start(4)`: seven tasks, the pool in
cached mode, four threads started. -/
def worldMain : World MainType MainType.El :=
  ({ World.init (List.replicate 7 (returnsULong 0)) with
      pool := ThreadPool.ctor.setMode PoolMode.MODE_CACHED }).start 4

/-! ## Bookkeeping for the run invariants -/

/-- The task a thread holds between dequeue and `exec()`, if any. -/
def Pc.heldTask : Pc → Option Nat
  | Pc.holding task => some task
  | _ => none

/-- The tasks held by threads that are between dequeue and `exec()`. -/
def heldTasks (threads : List OsThread) : List Nat :=
  threads.filterMap (fun t => t.pc.heldTask)

/-- A thread counts as idle (1) from its start until it takes a task and again
after `idleThreadSize_++` (line 223); a thread that left at line 161 stays
counted, since that path does not touch the counters. -/
def Pc.idleWeight : Pc → Nat
  | Pc.atLock => 1
  | Pc.inWaitFor => 1
  | Pc.inWait => 1
  | Pc.exited => 1
  | Pc.holding _ => 0
  | Pc.retired => 0
  | Pc.threw => 0

/-- A thread counts in `curThreadSize_` (1) unless it retired at line 176. -/
def Pc.liveWeight : Pc → Nat
  | Pc.retired => 0
  | _ => 1

/-- Number of threads counted as idle. -/
def countIdle (threads : List OsThread) : Nat :=
  (threads.map (fun t => t.pc.idleWeight)).sum

/-- Number of threads counted in `curThreadSize_`. -/
def countLive (threads : List OsThread) : Nat :=
  (threads.map (fun t => t.pc.liveWeight)).sum

/-- A call that configures the pool, with a maximum thread count that fits the
32-bit counters. -/
def Action.isSetter : Action → Bool
  | Action.setMode _ => true
  | Action.setTaskQueueMaxThreshHold _ => true
  | Action.setMaxThreadSize maxThreadSize => decide (maxThreadSize < UINT_SIZE)
  | _ => false

/-- Moves after `start`: anything but a second `start`. -/
def usageAfterStart : List Action → Bool
  | [] => true
  | Action.start _ :: _ => false
  | _ :: rest => usageAfterStart rest

/-- The intended use of the pool: setters, then one `start(n)` with
`0 ≤ n < 2^31`, then submissions, worker moves and the destructor. -/
def usage : List Action → Bool
  | [] => true
  | Action.start n :: rest => decide (0 ≤ n) && decide (n < 2 ^ 31) && usageAfterStart rest
  | a :: rest => a.isSetter && usage rest

/-! ## Invariants of runs -/

/-- The tasks accepted so far are those dequeued so far followed by the queue. -/
def FifoInv {τ : Type} {El : τ → Type} (w : World τ El) : Prop :=
  w.hist.accepted = w.hist.dequeued ++ w.pool.taskQueue_

/-- With at most one thread, the tasks executed so far followed by the task the
thread holds are the tasks dequeued so far. -/
def ExecInv {τ : Type} {El : τ → Type} (w : World τ El) : Prop :=
  w.osThreads.length ≤ 1 → w.hist.executed ++ heldTasks w.osThreads = w.hist.dequeued

/-- Before `start`: no thread, counters at 0, a maximum that fits the counters,
the destructor not entered. -/
def FreshInv {τ : Type} {El : τ → Type} (w : World τ El) : Prop :=
  w.osThreads = [] ∧ w.pool.threads_ = [] ∧ w.pool.idleThreadSize_ = 0 ∧
  w.pool.curThreadSize_ = 0 ∧ w.pool.maxThreadSize_ < UINT_SIZE ∧ w.destructing = false

/-- After `start`: `idleThreadSize_` and `curThreadSize_` count the threads, the
pool is running or being destroyed, and in cached mode `curThreadSize_` is
bounded by the larger of `maxThreadSize_` and `initThreadSize_`. -/
def CountInv {τ : Type} {El : τ → Type} (w : World τ El) : Prop :=
  w.pool.idleThreadSize_ = countIdle w.osThreads ∧
  w.pool.curThreadSize_ = countLive w.osThreads ∧
  countLive w.osThreads < UINT_SIZE ∧
  (w.pool.isPoolRunning_ = true ∨ w.destructing = true) ∧
  w.pool.maxThreadSize_ < UINT_SIZE ∧
  (w.pool.poolMode_ = PoolMode.MODE_CACHED →
    w.pool.curThreadSize_ ≤ max w.pool.maxThreadSize_ w.pool.initThreadSize_)

/-- A thread is parked in `wait_for` only in cached mode, and a thread is parked
only while the pool is running or being destroyed. -/
def WaitInv {τ : Type} {El : τ → Type} (w : World τ El) : Prop :=
  (∀ t ∈ w.osThreads, t.pc = Pc.inWaitFor → w.pool.poolMode_ = PoolMode.MODE_CACHED) ∧
  (∀ t ∈ w.osThreads, t.pc = Pc.inWaitFor ∨ t.pc = Pc.inWait →
    w.pool.isPoolRunning_ = true ∨ w.destructing = true)

/-! ## Runs used as examples -/

/-- Cached pool started with one thread.  Thread 0 takes task 0 and keeps
running it; the submission of task 1 starts thread 1, which takes and runs
task 1 and then parks in `wait_for`. -/
def actsExtraParked : List Action :=
  [Action.setMode PoolMode.MODE_CACHED, Action.start 1, Action.submitTask 0, Action.lock 0,
   Action.submitTask 1, Action.lock 1, Action.runTask 1, Action.lock 1]

/-- After `actsExtraParked`: task 2 is submitted while thread 1 is parked; then
`wait_for` of thread 1 returns `timeout`, 60 seconds after its last task. -/
def actsRetireQueued : List Action :=
  actsExtraParked ++ [Action.submitTask 2, Action.wake 1 CvStatus.timeout 60]

/-- After `actsExtraParked`: the destructor starts while thread 1 is parked;
then `wait_for` of thread 1 returns `timeout`, 60 seconds after its last
task. -/
def actsRetireStopped : List Action :=
  actsExtraParked ++ [Action.destroy, Action.wake 1 CvStatus.timeout 60]

/-- Cached pool started with no thread.  The submission of task 0 starts thread
0, which runs it and parks in `wait_for`; task 1 is submitted, the destructor
starts, and `wait_for` returns `timeout`, 60 seconds after the last task. -/
def actsRetireLast : List Action :=
  [Action.setMode PoolMode.MODE_CACHED, Action.start 0, Action.submitTask 0, Action.lock 0,
   Action.runTask 0, Action.lock 0, Action.submitTask 1, Action.destroy,
   Action.wake 0 CvStatus.timeout 60]

/-- Cached mode, then `start(11)`: more threads than `THREAD_MAX_SIZE`. -/
def actsStartAboveMax : List Action :=
  [Action.setMode PoolMode.MODE_CACHED, Action.start 11]

/-- Member `start` called twice. -/
def actsStartTwice : List Action := [Action.start 2, Action.start 1]

/-- Cached mode, a task submitted before `start(1)`. -/
def actsSubmitBeforeStart : List Action :=
  [Action.setMode PoolMode.MODE_CACHED, Action.submitTask 0, Action.start 1]

/-- The calls of `main.cpp`: cached mode, `start(4)`, seven submissions. -/
def actsMain : List Action :=
  [Action.setMode PoolMode.MODE_CACHED, Action.start 4, Action.submitTask 0, Action.submitTask 1,
   Action.submitTask 2, Action.submitTask 3, Action.submitTask 4, Action.submitTask 5,
   Action.submitTask 6]

/-- Seven tasks, as in `main.cpp`. -/
def worldSeven : World MainType MainType.El := World.init (List.replicate 7 (returnsULong 0))

/-! # Theorems -/

section Theorems
variable {τ : Type} {El : τ → Type}

/-! ## Any -/

/-- C4. `Any(v).cast_<T>()` returns `v` when `v` has type `T`; `cast_<U>()` with
`U` different from `T` throws `bad_cast`; and `cast_<T>()` on a
default-constructed `Any` throws `bad_cast` for every `T`. -/
theorem any_cast_roundtrip [DecidableEq τ] :
    (∀ (T : τ) (v : El T), (Any.ofData T v).cast_ T = Except.ok v) ∧
    (∀ (T U : τ) (v : El T), U ≠ T →
      (Any.ofData T v).cast_ U = Except.error BadCast.bad_cast) ∧
    (∀ T : τ, (Any.default : Any τ El).cast_ T = Except.error BadCast.bad_cast) := by
  refine ⟨?_, ?_, ?_⟩
  · intro T v
    simp [Any.ofData, Any.cast_]
  · intro T U v hne
    have h : ¬ T = U := fun e => hne e.symm
    simp [Any.ofData, Any.cast_, h]
  · intro T
    simp [Any.default, Any.cast_]

/-- C4 at the types of `main.cpp`: a `uLong` 5050 comes back as 5050, and is not
a `const char *`. -/
theorem any_cast_roundtrip_witness :
    (Any.ofData MainType.uLong (5050 : Nat) : Any MainType MainType.El).cast_ MainType.uLong
        = Except.ok (5050 : Nat) ∧
    (Any.ofData MainType.uLong (5050 : Nat) : Any MainType MainType.El).cast_
        MainType.constCharPtr = Except.error BadCast.bad_cast :=
  ⟨(@any_cast_roundtrip MainType MainType.El _).1 MainType.uLong (5050 : Nat),
   (@any_cast_roundtrip MainType MainType.El _).2.1 MainType.uLong MainType.constCharPtr
     (5050 : Nat) (by decide)⟩

/-! ## Configuration -/

/-- C6. On a running pool `setMode`, `setTaskQueueMaxThreshHold` and
`setMaxThreadSize` return the pool unchanged, whatever the argument; and
`start` sets the running flag. -/
theorem setters_frozen_while_running (s : ThreadPool) (h : s.isPoolRunning_ = true) :
    (∀ mode, s.setMode mode = s) ∧
    (∀ threshHold, s.setTaskQueueMaxThreshHold threshHold = s) ∧
    (∀ maxThreadSize, s.setMaxThreadSize maxThreadSize = s) ∧
    (∀ (w : World τ El) (n : Int), (w.start n).pool.isPoolRunning_ = true) := by
  refine ⟨?_, ?_, ?_, ?_⟩
  · intro mode
    simp [ThreadPool.setMode, ThreadPool.checkRunningState, h]
  · intro t
    simp [ThreadPool.setTaskQueueMaxThreshHold, ThreadPool.checkRunningState, h]
  · intro n
    simp [ThreadPool.setMaxThreadSize, ThreadPool.checkRunningState, h]
  · intro w n
    simp [World.start]

/-! ## Helper lemmas on the heap -/

theorem Any.cast_ofData [DecidableEq τ] (T : τ) (v : El T) :
    (Any.ofData T v).cast_ T = Except.ok v := by
  simp [Any.ofData, Any.cast_]

theorem Task.setResult_results (h : Heap τ El) (t r : Nat) :
    (Task.setResult h t r).results = h.results := by
  unfold Task.setResult
  split <;> rfl

theorem Result.ctor_results (h : Heap τ El) (t : Nat) (v : Bool) :
    (Result.ctor h t v).1.results
      = h.results ++ [⟨Any.default, Semaphore.ctor 0, t, v⟩] ∧
    (Result.ctor h t v).2 = h.results.length := by
  simp [Result.ctor, Task.setResult_results]

theorem World.step_terminated (w : World τ El) (h : w.terminated = true) (a : Action) :
    w.step a = none := by
  cases a <;> simp [World.step, h]

/-! ## Backpressure -/

/-- C1, as the code has it.  When the queue holds at least
`(size_t) taskQueueMaxThreshHold_` tasks at the moment `wait_for` gives up,
`submitTask` leaves the pool (queue, task count, worker set, counters), the
threads and the history unchanged, and returns a `Result` whose validity flag
is false and whose `get()` returns `Any("")` at once, the heap (and so the
semaphore) untouched. -/
theorem submitTask_rejects_when_full [CppTypes τ El] (w : World τ El) (taskPtr : Nat)
    (hfull : toSizeT w.pool.taskQueueMaxThreshHold_ ≤ w.pool.taskQueue_.length) :
    (w.submitTask taskPtr).1.pool = w.pool ∧
    (w.submitTask taskPtr).1.osThreads = w.osThreads ∧
    (w.submitTask taskPtr).1.generateId_ = w.generateId_ ∧
    (w.submitTask taskPtr).1.hist = w.hist ∧
    ((w.submitTask taskPtr).1.heap.results[(w.submitTask taskPtr).2]?).map (fun r => r.isValid_)
      = some false ∧
    Result.get (w.submitTask taskPtr).1.heap (w.submitTask taskPtr).2
      = some ((w.submitTask taskPtr).1.heap,
              Any.ofData (CppTypes.constCharPtr El) CppTypes.emptyLiteral) := by
  have hn : ¬ (w.pool.taskQueue_.length < toSizeT w.pool.taskQueueMaxThreshHold_) :=
    Nat.not_lt.mpr hfull
  have hs : w.submitTask taskPtr
      = ({ w with heap := (Result.ctor w.heap taskPtr false).1 },
         (Result.ctor w.heap taskPtr false).2) := by
    simp [World.submitTask, hn]
  have hc := Result.ctor_results w.heap taskPtr false
  rw [hs]
  refine ⟨rfl, rfl, rfl, rfl, ?_, ?_⟩
  · simp [hc.1, hc.2]
  · simp [Result.get, hc.1, hc.2]

/-- C1, the scenario: threshold 2, no worker, the first two submissions are in
the queue, and the third is rejected. -/
theorem submitTask_rejects_when_full_witness :
    worldFull.pool.taskQueue_ = [0, 1] ∧
    toSizeT worldFull.pool.taskQueueMaxThreshHold_ ≤ worldFull.pool.taskQueue_.length ∧
    (worldFull.submitTask 2).1.pool = worldFull.pool ∧
    ((worldFull.submitTask 2).1.heap.results[(worldFull.submitTask 2).2]?).map
      (fun r => r.isValid_) = some false :=
  ⟨by decide, by decide,
   (submitTask_rejects_when_full worldFull 2 (by decide)).1,
   (submitTask_rejects_when_full worldFull 2 (by decide)).2.2.2.2.1⟩

/-- C1 fails as stated.  With threshold -1 the empty queue holds at least
`taskQueueMaxThreshHold_` tasks (0 ≥ -1), and `submitTask` accepts the task:
the code compares with `(size_t)(-1)`. -/
theorem submitTask_negative_threshold_accepts :
    worldNegThreshold.pool.taskQueueMaxThreshHold_
      ≤ (worldNegThreshold.pool.taskQueue_.length : Int) ∧
    (worldNegThreshold.submitTask 0).1.pool.taskQueue_ = [0] ∧
    (worldNegThreshold.submitTask 0).1.hist.accepted = [0] ∧
    ((worldNegThreshold.submitTask 0).1.heap.results[(worldNegThreshold.submitTask 0).2]?).map
      (fun r => r.isValid_) = some true := by
  decide

/-! ## Result hand-off -/

/-- C2. For a task at `t` whose `run()` returns `v`, bound (`result_`) to a
valid `Result` at `r` with a fresh semaphore: `exec()` is one `setVal(v)`, which
posts once (count 1) and touches no other `Result`; then `get()` returns `v`,
leaves the count at 0, and `cast_` to the type of `v` gives the value. -/
theorem result_handoff [DecidableEq τ] [CppTypes τ El] (h : Heap τ El) (t r : Nat)
    (task : Task τ El) (res : Result τ El) (v : Any τ El)
    (ht : h.tasks[t]? = some task) (hrun : task.run = RunOutcome.returns v)
    (hbound : task.result_ = some r) (hr : h.results[r]? = some res)
    (hvalid : res.isValid_ = true) (hsem : res.sem_ = Semaphore.ctor 0) :
    Task.exec h t = Except.ok (Result.setVal h r v) ∧
    ((Result.setVal h r v).results[r]?).map (fun x => x.sem_.resLimit_) = some 1 ∧
    (∀ r1, r1 ≠ r → (Result.setVal h r v).results[r1]? = h.results[r1]?) ∧
    (Result.get (Result.setVal h r v) r).map (fun p => p.2) = some v ∧
    (Result.get (Result.setVal h r v) r).map
        (fun p => (p.1.results[r]?).map (fun x => x.sem_.resLimit_)) = some (some 0) ∧
    (∀ (T : τ) (d : El T), v = Any.ofData T d →
      (Result.get (Result.setVal h r v) r).map (fun p => p.2.cast_ T)
        = some (Except.ok d)) := by
  have hlt : r < h.results.length := by
    rcases List.getElem?_eq_some.mp hr with ⟨hlt, _⟩
    exact hlt
  have hget : Result.get (Result.setVal h r v) r
      = some ({ (Result.setVal h r v) with
                  results := (Result.setVal h r v).results.set r
                    { res with any_ := Any.default, sem_ := Semaphore.ctor 0 } }, v) := by
    simp [Result.get, Result.setVal, hr, hlt, hvalid, hsem, Semaphore.post, Semaphore.ctor,
      Semaphore.wait]
  refine ⟨?_, ?_, ?_, ?_, ?_, ?_⟩
  · simp [Task.exec, ht, hbound, hrun]
  · simp [Result.setVal, hr, hlt, hsem, Semaphore.post, Semaphore.ctor]
  · intro r1 hne
    simp [Result.setVal, hr, List.getElem?_set, Ne.symm hne]
  · rw [hget]; rfl
  · rw [hget]
    simp [Result.setVal, hr, hlt, Semaphore.ctor]
  · intro T d hv
    subst hv
    rw [hget]
    simp [Any.cast_ofData T d]

/-! ## Task failure -/

/-- C5, as the code has it.  When the `run()` of the task a worker holds throws
(the task being bound to a `Result`), the exception leaves `exec()` and
`threadFunc`: the pool is left as it was (the idle count is not restored), no
`Result` is set, the thread has left its loop, `std::terminate` was called,
and no move of the program is possible any more. -/
theorem task_failure_propagates (w : World τ El) (i : Nat) (t : OsThread) (task r : Nat)
    (tk : Task τ El) (hnt : w.terminated = false) (hi : w.osThreads[i]? = some t)
    (hpc : t.pc = Pc.holding task) (htk : w.heap.tasks[task]? = some tk)
    (hthrow : tk.run = RunOutcome.throws) (hb : tk.result_ = some r) :
    Task.exec w.heap task = Except.error () ∧
    w.step (Action.runTask i) = some (w.runTask i t task) ∧
    (w.runTask i t task).pool = w.pool ∧
    (w.runTask i t task).heap = w.heap ∧
    (w.runTask i t task).osThreads = w.osThreads.set i { t with pc := Pc.threw } ∧
    (w.runTask i t task).terminated = true ∧
    (∀ a, (w.runTask i t task).step a = none) := by
  have hex : Task.exec w.heap task = Except.error () := by
    simp [Task.exec, htk, hb, hthrow]
  have hrt : w.runTask i t task =
      { w with
          osThreads := w.osThreads.set i { t with pc := Pc.threw }
          terminated := true
          hist := { w.hist with executed := w.hist.executed ++ [task] } } := by
    simp [World.runTask, hex]
  refine ⟨hex, ?_, ?_, ?_, ?_, ?_, ?_⟩
  · simp [World.step, hnt, hi, hpc]
  · rw [hrt]
  · rw [hrt]
  · rw [hrt]
  · rw [hrt]
  · intro a
    exact World.step_terminated _ (by rw [hrt]) a

/-- C5 fails as stated.  One worker, a throwing task and a second task
submitted; the worker takes the first and runs it.  Afterwards the process is
terminated, the thread is out of its loop, the idle count is 0 of 1 (not
restored), the second task is still queued, `get()` on the first task's
`Result` blocks (nothing was reported), and the worker cannot take the lock
again. -/
theorem throwing_task_kills_worker :
    (worldThrow.run actsRunFirst).map
        (fun w => (w.terminated, w.osThreads, w.pool.idleThreadSize_, w.pool.curThreadSize_,
                   w.pool.taskQueue_))
      = some (true, [⟨0, Pc.threw⟩], 0, 1, [1]) ∧
    (worldThrow.run actsRunFirst).map (fun w => (Result.get w.heap 0).isNone) = some true ∧
    (worldThrow.run (actsRunFirst ++ [Action.lock 0])).isNone = true := by
  decide

/-! ## Witnesses -/

/-- C2, the scenario: on a fixed pool with one worker, `A.get()` gives 1 and
`B.get()` gives 2. -/
theorem result_handoff_witness :
    (Result.get (Result.setVal heapAB 0 (Any.ofData MainType.uLong (1 : Nat))) 0).map
        (fun p => p.2.cast_ MainType.uLong) = some (Except.ok (1 : Nat)) ∧
    (Result.get (Result.setVal heapAB 1 (Any.ofData MainType.uLong (2 : Nat))) 1).map
        (fun p => p.2.cast_ MainType.uLong) = some (Except.ok (2 : Nat)) ∧
    (worldAB.run actsRunAB).bind
        (fun w => (Result.get w.heap 0).map (fun p => p.2.cast_ MainType.uLong))
      = some (Except.ok (1 : Nat)) ∧
    (worldAB.run actsRunAB).bind
        (fun w => (Result.get w.heap 1).map (fun p => p.2.cast_ MainType.uLong))
      = some (Except.ok (2 : Nat)) :=
  ⟨(result_handoff heapAB 0 0 ⟨returnsULong 1, some 0⟩ ⟨Any.default, Semaphore.ctor 0, 0, true⟩
      (Any.ofData MainType.uLong (1 : Nat)) rfl rfl rfl rfl rfl rfl).2.2.2.2.2
      MainType.uLong (1 : Nat) rfl,
   (result_handoff heapAB 1 1 ⟨returnsULong 2, some 1⟩ ⟨Any.default, Semaphore.ctor 0, 1, true⟩
      (Any.ofData MainType.uLong (2 : Nat)) rfl rfl rfl rfl rfl rfl).2.2.2.2.2
      MainType.uLong (2 : Nat) rfl,
   rfl, rfl⟩

/-- C5 at the program `worldThrow`: the worker holding the throwing task. -/
theorem task_failure_propagates_witness :
    worldThrow.run actsTakeA = some worldThrowHeld ∧
    worldThrowHeld.step (Action.runTask 0)
      = some (worldThrowHeld.runTask 0 ⟨0, Pc.holding 0⟩ 0) ∧
    (worldThrowHeld.runTask 0 ⟨0, Pc.holding 0⟩ 0).pool = worldThrowHeld.pool ∧
    (worldThrowHeld.runTask 0 ⟨0, Pc.holding 0⟩ 0).terminated = true :=
  ⟨rfl,
   (task_failure_propagates worldThrowHeld 0 ⟨0, Pc.holding 0⟩ 0 0 ⟨RunOutcome.throws, some 0⟩
      rfl rfl rfl rfl rfl rfl).2.1,
   (task_failure_propagates worldThrowHeld 0 ⟨0, Pc.holding 0⟩ 0 0 ⟨RunOutcome.throws, some 0⟩
      rfl rfl rfl rfl rfl rfl).2.2.1,
   (task_failure_propagates worldThrowHeld 0 ⟨0, Pc.holding 0⟩ 0 0 ⟨RunOutcome.throws, some 0⟩
      rfl rfl rfl rfl rfl rfl).2.2.2.2.2.1⟩

/-- C6 at the pool of `main.cpp` after `start(4)`. -/
theorem setters_frozen_while_running_witness :
    (worldAB.start 4).pool.isPoolRunning_ = true ∧
    (worldAB.start 4).pool.setMode PoolMode.MODE_CACHED = (worldAB.start 4).pool ∧
    (worldAB.start 4).pool.setTaskQueueMaxThreshHold 2 = (worldAB.start 4).pool ∧
    (worldAB.start 4).pool.setMaxThreadSize 100 = (worldAB.start 4).pool :=
  ⟨by decide,
   (@setters_frozen_while_running MainType MainType.El (worldAB.start 4).pool (by decide)).1
     PoolMode.MODE_CACHED,
   (@setters_frozen_while_running MainType MainType.El (worldAB.start 4).pool (by decide)).2.1 2,
   (@setters_frozen_while_running MainType MainType.El (worldAB.start 4).pool (by decide)).2.2.1
     100⟩

/-! ## Elastic growth -/

theorem uintInc_of_lt (x : Nat) (h : x + 1 < UINT_SIZE) : uintInc x = x + 1 := by
  unfold uintInc
  rw [if_neg (Nat.ne_of_lt h)]

theorem uintDec_of_pos (x : Nat) (h0 : 0 < x) : uintDec x = x - 1 := by
  unfold uintDec
  rw [if_neg (Nat.pos_iff_ne_zero.mp h0)]

theorem uintInc_eq_mod (x : Nat) (h : x < UINT_SIZE) : uintInc x = (x + 1) % UINT_SIZE := by
  unfold uintInc
  split
  · rename_i e
    rw [e, Nat.mod_self]
  · rename_i e
    exact (Nat.mod_eq_of_lt (by omega)).symm

theorem uintDec_eq_mod (x : Nat) (h : x < UINT_SIZE) :
    uintDec x = (x + UINT_SIZE - 1) % UINT_SIZE := by
  unfold uintDec
  split
  · rename_i e
    subst e
    simp [UINT_SIZE]
  · rename_i e
    have e1 : x + UINT_SIZE - 1 = (x - 1) + UINT_SIZE := by omega
    rw [e1, Nat.add_mod_right]
    exact (Nat.mod_eq_of_lt (by omega)).symm

theorem toSizeT_of_nonneg (x : Int) (h0 : 0 ≤ x) (h : x < 2 ^ 64) : toSizeT x = x.toNat := by
  unfold toSizeT SIZE_T_SIZE
  have : x % ((2 ^ 64 : Nat) : Int) = x := Int.emod_eq_of_lt h0 (by simpa using h)
  rw [this]

theorem toUint_of_nonneg (x : Int) (h0 : 0 ≤ x) (h : x < 2 ^ 32) : toUint x = x.toNat := by
  unfold toUint UINT_SIZE
  have : x % ((2 ^ 32 : Nat) : Int) = x := Int.emod_eq_of_lt h0 (by simpa using h)
  rw [this]

/-- The pool after an accepted `submitTask`. -/
theorem World.submitTask_pool_of_room (w : World τ El) (taskPtr : Nat)
    (h : w.pool.taskQueue_.length < toSizeT w.pool.taskQueueMaxThreshHold_) :
    (w.submitTask taskPtr).1.pool =
      if w.pool.poolMode_ = PoolMode.MODE_CACHED ∧ uintInc w.pool.taskSize_ > w.pool.idleThreadSize_
          ∧ w.pool.curThreadSize_ < w.pool.maxThreadSize_ then
        { w.pool with
            taskQueue_ := w.pool.taskQueue_ ++ [taskPtr]
            taskSize_ := uintInc w.pool.taskSize_
            threads_ := emplace w.pool.threads_ w.generateId_
            curThreadSize_ := uintInc w.pool.curThreadSize_
            idleThreadSize_ := uintInc w.pool.idleThreadSize_ }
      else
        { w.pool with
            taskQueue_ := w.pool.taskQueue_ ++ [taskPtr]
            taskSize_ := uintInc w.pool.taskSize_ } := by
  unfold World.submitTask
  simp only [h, not_true_eq_false, if_false]
  split <;> rfl

/-- worker count after `q` queued tasks of a burst -/
theorem burst_step_count (I M q : Nat) (hIM : I < M) :
    (if q + 1 > max I (min M q) ∧ max I (min M q) < M then max I (min M q) + 1
     else max I (min M q)) = max I (min M (q + 1)) := by
  split <;> omega

theorem World.submitAll_burst (M I : Nat) (hIM : I < M) (hI : I < 2 ^ 31) (ts : List Nat) :
    ∀ (w : World τ El) (q : Nat),
      w.pool.poolMode_ = PoolMode.MODE_CACHED → w.pool.maxThreadSize_ = M →
      w.pool.taskQueue_.length = q → w.pool.taskSize_ = q →
      w.pool.curThreadSize_ = max I (min M q) → w.pool.idleThreadSize_ = max I (min M q) →
      w.pool.taskQueueMaxThreshHold_ < 2 ^ 31 →
      ((q + ts.length : Nat) : Int) ≤ w.pool.taskQueueMaxThreshHold_ →
      (w.submitAll ts).pool.curThreadSize_ = max I (min M (q + ts.length)) ∧
      (w.submitAll ts).pool.idleThreadSize_ = max I (min M (q + ts.length)) ∧
      (w.submitAll ts).pool.taskQueue_ = w.pool.taskQueue_ ++ ts ∧
      (w.submitAll ts).pool.maxThreadSize_ = M := by
  induction ts with
  | nil =>
    intro w q hmode hmax hq hsz hcur hidle hint hth
    simp [World.submitAll, hcur, hidle, hmax]
  | cons t rest ih =>
    intro w q hmode hmax hq hsz hcur hidle hint hth
    simp only [List.length_cons] at hth
    have hqlt : (q : Int) + 1 ≤ w.pool.taskQueueMaxThreshHold_ := by
      have : ((q + (rest.length + 1) : Nat) : Int) = (q : Int) + rest.length + 1 := by
        push_cast; ring
      omega
    have h0 : 0 ≤ w.pool.taskQueueMaxThreshHold_ := by omega
    have hT : toSizeT w.pool.taskQueueMaxThreshHold_ = w.pool.taskQueueMaxThreshHold_.toNat :=
      toSizeT_of_nonneg _ h0 (by omega)
    have hroom : w.pool.taskQueue_.length < toSizeT w.pool.taskQueueMaxThreshHold_ := by
      rw [hT, hq]; omega
    have hp := World.submitTask_pool_of_room w t hroom
    have hq32 : q + 1 < UINT_SIZE := by unfold UINT_SIZE; omega
    have hc32 : max I (min M q) + 1 < UINT_SIZE := by unfold UINT_SIZE; omega
    rw [hsz, hcur, hidle, hmax, hmode, uintInc_of_lt q hq32,
      uintInc_of_lt _ hc32] at hp
    simp only [true_and] at hp
    have hstep := burst_step_count I M q hIM
    have key : (w.submitTask t).1.pool.curThreadSize_ = max I (min M (q + 1)) ∧
        (w.submitTask t).1.pool.idleThreadSize_ = max I (min M (q + 1)) ∧
        (w.submitTask t).1.pool.taskQueue_ = w.pool.taskQueue_ ++ [t] ∧
        (w.submitTask t).1.pool.taskSize_ = q + 1 ∧
        (w.submitTask t).1.pool.maxThreadSize_ = M ∧
        (w.submitTask t).1.pool.poolMode_ = PoolMode.MODE_CACHED ∧
        (w.submitTask t).1.pool.taskQueueMaxThreshHold_ = w.pool.taskQueueMaxThreshHold_ := by
      rw [hp]
      by_cases hc : q + 1 > max I (min M q) ∧ max I (min M q) < M
      · rw [if_pos hc] at hstep
        rw [if_pos hc]
        simp [hstep, hmax, hmode]
      · rw [if_neg hc] at hstep
        rw [if_neg hc]
        simp [hstep, hmax, hmode, hcur, hidle]
    obtain ⟨k1, k2, k3, k4, k5, k6, k7⟩ := key
    have hlen : (w.submitTask t).1.pool.taskQueue_.length = q + 1 := by
      rw [k3]; simp [hq]
    have := ih (w.submitTask t).1 (q + 1) k6 k5 hlen k4 k1 k2 (by rw [k7]; exact hint)
      (by rw [k7]; have : q + 1 + rest.length = q + (rest.length + 1) := by omega
          rw [this]; exact hth)
    have e : q + 1 + rest.length = q + (rest.length + 1) := by omega
    rw [e] at this
    simp only [World.submitAll, List.length_cons]
    refine ⟨this.1, this.2.1, ?_, this.2.2.2⟩
    rw [this.2.2.1, k3]
    simp

theorem emplace_length_le (l : List Nat) (x : Nat) : (emplace l x).length ≤ l.length + 1 := by
  unfold emplace
  split <;> simp

theorem World.submitTask_grows_by_one (w : World τ El) (taskPtr : Nat) :
    (w.submitTask taskPtr).1.osThreads.length ≤ w.osThreads.length + 1 ∧
    (w.submitTask taskPtr).1.pool.threads_.length ≤ w.pool.threads_.length + 1 := by
  unfold World.submitTask
  split
  · simp
  · dsimp only
    split
    · simp only [List.length_append, List.length_singleton]
      exact ⟨Nat.le_refl _, emplace_length_le _ _⟩
    · simp

/-- C7. In cached mode with `maxThreadSize_ = M`, `I < M` threads all idle and
an empty queue, a burst of `B > I` submissions that stays within the
threshold (an `int`) and during which no worker moves ends with
`curThreadSize_ = min M B`, all tasks queued; after every part of the burst
`curThreadSize_ ≤ M`; and one `submitTask` creates at most one thread. -/
theorem elastic_burst (w : World τ El) (ts : List Nat) (I M : Nat)
    (hmode : w.pool.poolMode_ = PoolMode.MODE_CACHED) (hmax : w.pool.maxThreadSize_ = M)
    (hcur : w.pool.curThreadSize_ = I) (hidle : w.pool.idleThreadSize_ = I)
    (hq : w.pool.taskQueue_ = []) (hsz : w.pool.taskSize_ = 0)
    (hIM : I < M) (hB : I < ts.length)
    (hint : w.pool.taskQueueMaxThreshHold_ < 2 ^ 31)
    (hth : (ts.length : Int) ≤ w.pool.taskQueueMaxThreshHold_) :
    (w.submitAll ts).pool.curThreadSize_ = min M ts.length ∧
    (w.submitAll ts).pool.taskQueue_ = ts ∧
    (∀ k, (w.submitAll (ts.take k)).pool.curThreadSize_ ≤ M) ∧
    (∀ (v : World τ El) (taskPtr : Nat),
      (v.submitTask taskPtr).1.osThreads.length ≤ v.osThreads.length + 1 ∧
      (v.submitTask taskPtr).1.pool.threads_.length ≤ v.pool.threads_.length + 1) := by
  have hI : I < 2 ^ 31 := by omega
  have hm0 : max I (min M 0) = I := by simp
  have hlen0 : w.pool.taskQueue_.length = 0 := by simp [hq]
  have main := World.submitAll_burst M I hIM hI ts w 0 hmode hmax hlen0 hsz
    (by rw [hm0]; exact hcur) (by rw [hm0]; exact hidle) hint (by simpa using hth)
  refine ⟨?_, ?_, ?_, World.submitTask_grows_by_one⟩
  · rw [main.1]
    simp only [Nat.zero_add]
    omega
  · rw [main.2.2.1, hq]
    simp
  · intro k
    have hk : (ts.take k).length ≤ ts.length := by simp
    have part := World.submitAll_burst M I hIM hI (ts.take k) w 0 hmode hmax hlen0 hsz
      (by rw [hm0]; exact hcur) (by rw [hm0]; exact hidle) hint
      (by
        have : ((0 + (ts.take k).length : Nat) : Int) ≤ (ts.length : Int) := by
          simp only [Nat.zero_add]
          exact_mod_cast hk
        omega)
    rw [part.1]
    omega

/-- C7, the scenario of `main.cpp`: `I = 4`, `M = 10`, `B = 7` gives 7 threads. -/
theorem elastic_burst_witness :
    worldMain.pool.curThreadSize_ = 4 ∧
    (worldMain.submitAll [0, 1, 2, 3, 4, 5, 6]).pool.curThreadSize_ = 7 :=
  ⟨by decide,
   (elastic_burst worldMain [0, 1, 2, 3, 4, 5, 6] 4 10 (by decide) (by decide) (by decide)
     (by decide) (by decide) (by decide) (by decide) (by decide) (by decide) (by decide)).1⟩

/-! ## Moves of the program, case by case -/

theorem ThreadPool.whileQueueEmpty_cases (s : ThreadPool) (threadId : Nat) :
    (s.taskQueue_ = [] ∧ s.isPoolRunning_ = false ∧
      s.whileQueueEmpty threadId
        = ({ s with threads_ := s.threads_.erase threadId }, Pc.exited)) ∨
    (s.taskQueue_ = [] ∧ s.isPoolRunning_ = true ∧ s.poolMode_ = PoolMode.MODE_CACHED ∧
      s.whileQueueEmpty threadId = (s, Pc.inWaitFor)) ∨
    (s.taskQueue_ = [] ∧ s.isPoolRunning_ = true ∧ s.poolMode_ ≠ PoolMode.MODE_CACHED ∧
      s.whileQueueEmpty threadId = (s, Pc.inWait)) ∨
    (∃ task rest, s.taskQueue_ = task :: rest ∧
      s.whileQueueEmpty threadId
        = ({ s with
              idleThreadSize_ := uintDec s.idleThreadSize_
              taskQueue_ := rest
              taskSize_ := uintDec s.taskSize_ }, Pc.holding task)) := by
  unfold ThreadPool.whileQueueEmpty
  cases hq : s.taskQueue_ with
  | nil =>
    cases hr : s.isPoolRunning_ with
    | false => left; simp
    | true =>
      by_cases hm : s.poolMode_ = PoolMode.MODE_CACHED
      · right; left; simp [hm]
      · right; right; left; simp [hm]
  | cons task rest =>
    right; right; right
    exact ⟨task, rest, rfl, rfl⟩

theorem ThreadPool.afterWaitFor_cases (s : ThreadPool) (threadId : Nat) (status : CvStatus)
    (idleSecs : Int) :
    (status = CvStatus.timeout ∧ idleSecs ≥ THREAD_MAX_IDLE_TIME ∧
      s.curThreadSize_ > s.initThreadSize_ ∧
      s.afterWaitFor threadId status idleSecs
        = ({ s with
              threads_ := s.threads_.erase threadId
              curThreadSize_ := uintDec s.curThreadSize_
              idleThreadSize_ := uintDec s.idleThreadSize_ }, Pc.retired)) ∨
    (¬ (status = CvStatus.timeout ∧ idleSecs ≥ THREAD_MAX_IDLE_TIME ∧
        s.curThreadSize_ > s.initThreadSize_) ∧
      s.afterWaitFor threadId status idleSecs = s.whileQueueEmpty threadId) := by
  unfold ThreadPool.afterWaitFor
  by_cases h1 : status = CvStatus.timeout
  · by_cases h2 : idleSecs ≥ THREAD_MAX_IDLE_TIME ∧ s.curThreadSize_ > s.initThreadSize_
    · left; simp [h1, h2]
    · right
      refine ⟨fun h => h2 h.2, ?_⟩
      simp [h1, h2]
  · right; simp [h1]

theorem World.step_lock (w w1 : World τ El) (i : Nat) (h : w.step (Action.lock i) = some w1) :
    ∃ t, w.terminated = false ∧ w.osThreads[i]? = some t ∧ t.pc = Pc.atLock ∧
      w1 = w.afterLocked i t (w.pool.whileQueueEmpty t.threadId) := by
  simp only [World.step] at h
  split at h
  · exact absurd h (by simp)
  · rename_i hnt
    split at h
    · rename_i t ht
      split at h
      · rename_i hpc
        exact ⟨t, by simpa using hnt, ht, hpc, (Option.some.inj h).symm⟩
      · exact absurd h (by simp)
    · exact absurd h (by simp)

theorem World.step_wake (w w1 : World τ El) (i : Nat) (status : CvStatus) (idleSecs : Int)
    (h : w.step (Action.wake i status idleSecs) = some w1) :
    ∃ t, w.terminated = false ∧ w.osThreads[i]? = some t ∧
      ((t.pc = Pc.inWaitFor ∧
          w1 = w.afterLocked i t (w.pool.afterWaitFor t.threadId status idleSecs)) ∨
       (t.pc = Pc.inWait ∧ w1 = w.afterLocked i t (w.pool.whileQueueEmpty t.threadId))) := by
  simp only [World.step] at h
  split at h
  · exact absurd h (by simp)
  · rename_i hnt
    split at h
    · rename_i t ht
      split at h
      · rename_i hpc
        exact ⟨t, by simpa using hnt, ht, Or.inl ⟨hpc, (Option.some.inj h).symm⟩⟩
      · rename_i hpc
        exact ⟨t, by simpa using hnt, ht, Or.inr ⟨hpc, (Option.some.inj h).symm⟩⟩
      · exact absurd h (by simp)
    · exact absurd h (by simp)

theorem World.step_runTask (w w1 : World τ El) (i : Nat) (h : w.step (Action.runTask i) = some w1) :
    ∃ t task, w.terminated = false ∧ w.osThreads[i]? = some t ∧ t.pc = Pc.holding task ∧
      w1 = w.runTask i t task := by
  simp only [World.step] at h
  split at h
  · exact absurd h (by simp)
  · rename_i hnt
    split at h
    · rename_i t ht
      split at h
      · rename_i task hpc
        exact ⟨t, task, by simpa using hnt, ht, hpc, (Option.some.inj h).symm⟩
      · exact absurd h (by simp)
    · exact absurd h (by simp)

theorem World.step_api (w w1 : World τ El) (a : Action) (h : w.step a = some w1) :
    (∃ i, a = Action.lock i) ∨ (∃ i st d, a = Action.wake i st d) ∨ (∃ i, a = Action.runTask i) ∨
    (w.terminated = false ∧ w.destructing = false ∧
      ((∃ mode, a = Action.setMode mode ∧ w1 = { w with pool := w.pool.setMode mode }) ∨
       (∃ th, a = Action.setTaskQueueMaxThreshHold th ∧
          w1 = { w with pool := w.pool.setTaskQueueMaxThreshHold th }) ∨
       (∃ m, a = Action.setMaxThreadSize m ∧ w1 = { w with pool := w.pool.setMaxThreadSize m }) ∨
       (∃ n, a = Action.start n ∧ w1 = w.start n) ∨
       (∃ t, a = Action.submitTask t ∧ w1 = (w.submitTask t).1) ∨
       (a = Action.destroy ∧ w1 = w.destroy))) := by
  cases a with
  | lock i => exact Or.inl ⟨i, rfl⟩
  | wake i st d => exact Or.inr (Or.inl ⟨i, st, d, rfl⟩)
  | runTask i => exact Or.inr (Or.inr (Or.inl ⟨i, rfl⟩))
  | setMode mode =>
    right; right; right
    simp only [World.step] at h
    split at h
    · exact absurd h (by simp)
    · rename_i hc
      simp only [not_or, Bool.not_eq_true] at hc
      exact ⟨hc.1, hc.2, Or.inl ⟨mode, rfl, (Option.some.inj h).symm⟩⟩
  | setTaskQueueMaxThreshHold th =>
    right; right; right
    simp only [World.step] at h
    split at h
    · exact absurd h (by simp)
    · rename_i hc
      simp only [not_or, Bool.not_eq_true] at hc
      exact ⟨hc.1, hc.2, Or.inr (Or.inl ⟨th, rfl, (Option.some.inj h).symm⟩)⟩
  | setMaxThreadSize m =>
    right; right; right
    simp only [World.step] at h
    split at h
    · exact absurd h (by simp)
    · rename_i hc
      simp only [not_or, Bool.not_eq_true] at hc
      exact ⟨hc.1, hc.2, Or.inr (Or.inr (Or.inl ⟨m, rfl, (Option.some.inj h).symm⟩))⟩
  | start n =>
    right; right; right
    simp only [World.step] at h
    split at h
    · exact absurd h (by simp)
    · rename_i hc
      simp only [not_or, Bool.not_eq_true] at hc
      exact ⟨hc.1, hc.2, Or.inr (Or.inr (Or.inr (Or.inl ⟨n, rfl, (Option.some.inj h).symm⟩)))⟩
  | submitTask t =>
    right; right; right
    simp only [World.step] at h
    split at h
    · exact absurd h (by simp)
    · rename_i hc
      simp only [not_or, Bool.not_eq_true] at hc
      exact ⟨hc.1, hc.2,
        Or.inr (Or.inr (Or.inr (Or.inr (Or.inl ⟨t, rfl, (Option.some.inj h).symm⟩))))⟩
  | destroy =>
    right; right; right
    simp only [World.step] at h
    split at h
    · exact absurd h (by simp)
    · rename_i hc
      simp only [not_or, Bool.not_eq_true] at hc
      exact ⟨hc.1, hc.2,
        Or.inr (Or.inr (Or.inr (Or.inr (Or.inr ⟨rfl, (Option.some.inj h).symm⟩))))⟩

/-- An invariant of every move holds after every run. -/
theorem World.run_invariant (P : World τ El → Prop)
    (hstep : ∀ (w w1 : World τ El) (a : Action), P w → w.step a = some w1 → P w1) :
    ∀ (acts : List Action) (w w1 : World τ El), P w → w.run acts = some w1 → P w1 := by
  intro acts
  induction acts with
  | nil =>
    intro w w1 hP h
    simp only [World.run] at h
    cases h
    exact hP
  | cons a rest ih =>
    intro w w1 hP h
    simp only [World.run] at h
    cases hs : w.step a with
    | none => rw [hs] at h; exact absurd h (by simp)
    | some w2 =>
      rw [hs] at h
      exact ih w2 w1 (hstep w w2 a hP hs) h

/-! ## FIFO -/


theorem World.afterLocked_whileQueueEmpty_fifo (w : World τ El) (i : Nat) (t : OsThread)
    (threadId : Nat) (h : FifoInv w) :
    FifoInv (w.afterLocked i t (w.pool.whileQueueEmpty threadId)) := by
  unfold FifoInv at *
  rcases ThreadPool.whileQueueEmpty_cases w.pool threadId with
    ⟨hq, _, e⟩ | ⟨hq, _, _, e⟩ | ⟨hq, _, _, e⟩ | ⟨task, rest, hq, e⟩
  · rw [e]; exact h
  · rw [e]; exact h
  · rw [e]; exact h
  · rw [e]
    simp only [World.afterLocked]
    rw [h, hq, List.append_assoc]
    rfl

theorem World.step_fifo (w w1 : World τ El) (a : Action) (h : FifoInv w)
    (hs : w.step a = some w1) : FifoInv w1 := by
  rcases World.step_api w w1 a hs with ⟨i, rfl⟩ | ⟨i, st, d, rfl⟩ | ⟨i, rfl⟩ | ⟨_, _, hapi⟩
  · obtain ⟨t, _, _, _, rfl⟩ := World.step_lock w w1 i hs
    exact World.afterLocked_whileQueueEmpty_fifo w i t _ h
  · obtain ⟨t, _, _, hc⟩ := World.step_wake w w1 i st d hs
    rcases hc with ⟨_, rfl⟩ | ⟨_, rfl⟩
    · rcases ThreadPool.afterWaitFor_cases w.pool t.threadId st d with ⟨_, _, _, e⟩ | ⟨_, e⟩
      · rw [e]
        exact h
      · rw [e]
        exact World.afterLocked_whileQueueEmpty_fifo w i t _ h
    · exact World.afterLocked_whileQueueEmpty_fifo w i t _ h
  · obtain ⟨t, task, _, _, _, rfl⟩ := World.step_runTask w w1 i hs
    unfold FifoInv at *
    unfold World.runTask
    split <;> exact h
  · unfold FifoInv at *
    rcases hapi with ⟨m, _, rfl⟩ | ⟨th, _, rfl⟩ | ⟨m, _, rfl⟩ | ⟨n, _, rfl⟩ | ⟨t, _, rfl⟩ | ⟨_, rfl⟩
    · simp only [ThreadPool.setMode]
      split <;> exact h
    · simp only [ThreadPool.setTaskQueueMaxThreshHold]
      split <;> exact h
    · simp only [ThreadPool.setMaxThreadSize]
      split
      · exact h
      · split <;> exact h
    · exact h
    · unfold World.submitTask
      split
      · exact h
      · dsimp only
        split
        · rw [h, List.append_assoc]
        · rw [h, List.append_assoc]
    · exact h

theorem World.init_fifo (tasks : List (RunOutcome τ El)) : FifoInv (World.init tasks) := by
  simp [FifoInv, World.init, ThreadPool.ctor]

theorem single_thread {α : Type} (l : List α) (i : Nat) (t : α) (hl : l.length ≤ 1)
    (h : l[i]? = some t) : l = [t] ∧ i = 0 := by
  match l, hl, h with
  | [x], _, h =>
    cases i with
    | zero => simp at h; simp [h]
    | succ j => simp at h
  | [], _, h => simp at h

theorem heldTasks_append_atLock (l : List OsThread) (ids : List Nat) :
    heldTasks (l ++ ids.map (fun threadId => ⟨threadId, Pc.atLock⟩)) = heldTasks l := by
  unfold heldTasks
  rw [List.filterMap_append]
  have : List.filterMap (fun t : OsThread => t.pc.heldTask)
      (ids.map (fun threadId => (⟨threadId, Pc.atLock⟩ : OsThread))) = [] := by
    induction ids with
    | nil => rfl
    | cons x xs ih => simp [List.filterMap_cons, Pc.heldTask, ih]
  rw [this, List.append_nil]

theorem World.afterLocked_execInv (w : World τ El) (i : Nat) (t : OsThread) (r : ThreadPool × Pc)
    (hi : w.osThreads[i]? = some t) (hpc : ∀ task, t.pc ≠ Pc.holding task) (h : ExecInv w) :
    ExecInv (w.afterLocked i t r) := by
  intro hl
  simp only [World.afterLocked, List.length_set] at hl
  obtain ⟨hl1, rfl⟩ := single_thread _ i t hl hi
  have h0 := h hl
  have held0 : heldTasks w.osThreads = [] := by
    rw [hl1]
    unfold heldTasks
    cases hp : t.pc with
    | holding task => exact absurd hp (hpc task)
    | _ => simp [Pc.heldTask, hp]
  rw [held0, List.append_nil] at h0
  simp only [World.afterLocked, hl1, List.set_cons_zero]
  cases hp : r.2 with
  | holding task => simp [heldTasks, Pc.heldTask, h0]
  | _ => simp [heldTasks, Pc.heldTask, h0]

theorem World.step_execInv (w w1 : World τ El) (a : Action) (h : ExecInv w)
    (hs : w.step a = some w1) : ExecInv w1 := by
  rcases World.step_api w w1 a hs with ⟨i, rfl⟩ | ⟨i, st, d, rfl⟩ | ⟨i, rfl⟩ | ⟨_, _, hapi⟩
  · obtain ⟨t, _, hi, hpc, rfl⟩ := World.step_lock w w1 i hs
    exact World.afterLocked_execInv w i t _ hi (by simp [hpc]) h
  · obtain ⟨t, _, hi, hc⟩ := World.step_wake w w1 i st d hs
    rcases hc with ⟨hpc, rfl⟩ | ⟨hpc, rfl⟩
    · exact World.afterLocked_execInv w i t _ hi (by simp [hpc]) h
    · exact World.afterLocked_execInv w i t _ hi (by simp [hpc]) h
  · obtain ⟨t, task, _, hi, hpc, rfl⟩ := World.step_runTask w w1 i hs
    intro hl
    have hl0 : w.osThreads.length ≤ 1 := by
      unfold World.runTask at hl
      split at hl <;> simpa using hl
    obtain ⟨hl1, rfl⟩ := single_thread _ i t hl0 hi
    have h0 := h hl0
    have held0 : heldTasks w.osThreads = [task] := by
      rw [hl1]
      simp [heldTasks, Pc.heldTask, hpc]
    rw [held0] at h0
    unfold World.runTask
    split <;> simp [hl1, heldTasks, Pc.heldTask, h0]
  · rcases hapi with ⟨m, _, rfl⟩ | ⟨th, _, rfl⟩ | ⟨m, _, rfl⟩ | ⟨n, _, rfl⟩ | ⟨t, _, rfl⟩ | ⟨_, rfl⟩
    · exact h
    · exact h
    · exact h
    · intro hl
      simp only [World.start, List.length_append] at hl
      have h0 := h (by omega)
      simp only [World.start]
      rw [heldTasks_append_atLock]
      exact h0
    · unfold World.submitTask
      split
      · exact h
      · dsimp only
        split
        · intro hl
          simp only [List.length_append, List.length_singleton] at hl
          have h0 := h (by omega)
          have := heldTasks_append_atLock w.osThreads [w.generateId_]
          simp only [List.map_cons, List.map_nil] at this
          simp only [this]
          exact h0
        · exact h
    · exact h

theorem World.init_execInv (tasks : List (RunOutcome τ El)) : ExecInv (World.init tasks) := by
  intro _
  simp [World.init, heldTasks]

/-- C3. In every run of the program from a fresh pool, the tasks workers took out
of the queue are a prefix of the tasks `submitTask` accepted, in the same
order (the rest is the queue); and with at most one worker thread the tasks
on which `exec()` was called are a prefix of the accepted tasks too. -/
theorem fifo_dequeue_order (tasks : List (RunOutcome τ El)) (acts : List Action)
    (w : World τ El) (h : (World.init tasks).run acts = some w) :
    w.hist.accepted = w.hist.dequeued ++ w.pool.taskQueue_ ∧
    w.hist.dequeued <+: w.hist.accepted ∧
    (w.osThreads.length ≤ 1 → w.hist.executed <+: w.hist.accepted) := by
  have h1 : FifoInv w :=
    World.run_invariant FifoInv World.step_fifo acts _ w (World.init_fifo tasks) h
  have h2 : ExecInv w :=
    World.run_invariant ExecInv World.step_execInv acts _ w (World.init_execInv tasks) h
  refine ⟨h1, ⟨_, h1.symm⟩, ?_⟩
  intro hl
  have h3 := h2 hl
  refine ⟨heldTasks w.osThreads ++ w.pool.taskQueue_, ?_⟩
  rw [← List.append_assoc, h3]
  exact h1.symm

theorem sum_map_set {α : Type} (f : α → Nat) (l : List α) :
    ∀ (i : Nat) (t x : α), l[i]? = some t →
      ((l.set i x).map f).sum + f t = (l.map f).sum + f x := by
  induction l with
  | nil => intro i t x h; simp at h
  | cons a rest ih =>
    intro i t x h
    cases i with
    | zero =>
      simp only [List.getElem?_cons_zero, Option.some.injEq] at h
      subst h
      simp only [List.set_cons_zero, List.map_cons, List.sum_cons]
      omega
    | succ j =>
      simp only [List.getElem?_cons_succ] at h
      have := ih j t x h
      simp only [List.set_cons_succ, List.map_cons, List.sum_cons]
      omega

theorem countIdle_set (l : List OsThread) (i : Nat) (t x : OsThread) (h : l[i]? = some t) :
    countIdle (l.set i x) + t.pc.idleWeight = countIdle l + x.pc.idleWeight :=
  sum_map_set (fun t => t.pc.idleWeight) l i t x h

theorem countLive_set (l : List OsThread) (i : Nat) (t x : OsThread) (h : l[i]? = some t) :
    countLive (l.set i x) + t.pc.liveWeight = countLive l + x.pc.liveWeight :=
  sum_map_set (fun t => t.pc.liveWeight) l i t x h

theorem Pc.idleWeight_le_liveWeight (pc : Pc) : pc.idleWeight ≤ pc.liveWeight := by
  cases pc <;> simp [Pc.idleWeight, Pc.liveWeight]

theorem countIdle_le_countLive (l : List OsThread) : countIdle l ≤ countLive l := by
  unfold countIdle countLive
  induction l with
  | nil => simp
  | cons a rest ih =>
    simp only [List.map_cons, List.sum_cons]
    have := Pc.idleWeight_le_liveWeight a.pc
    omega

theorem countIdle_append_atLock (l : List OsThread) (ids : List Nat) :
    countIdle (l ++ ids.map (fun threadId => ⟨threadId, Pc.atLock⟩)) = countIdle l + ids.length := by
  unfold countIdle
  induction ids with
  | nil => simp
  | cons x xs ih =>
    simp only [List.map_append, List.sum_append, List.map_cons, List.sum_cons,
      List.length_cons, Pc.idleWeight] at ih ⊢
    omega

theorem countLive_append_atLock (l : List OsThread) (ids : List Nat) :
    countLive (l ++ ids.map (fun threadId => ⟨threadId, Pc.atLock⟩)) = countLive l + ids.length := by
  unfold countLive
  induction ids with
  | nil => simp
  | cons x xs ih =>
    simp only [List.map_append, List.sum_append, List.map_cons, List.sum_cons,
      List.length_cons, Pc.liveWeight] at ih ⊢
    omega

theorem foldl_emplace_range (g0 : Nat) (m : Nat) :
    ∀ k, (List.range' (g0 + k) m).foldl emplace (List.range' g0 k) = List.range' g0 (k + m) := by
  induction m with
  | zero => intro k; simp
  | succ m ih =>
    intro k
    rw [List.range'_succ, List.foldl_cons]
    have hnot : g0 + k ∉ List.range' g0 k := by
      simp [List.mem_range']
    have he : emplace (List.range' g0 k) (g0 + k) = List.range' g0 (k + 1) := by
      unfold emplace
      rw [if_neg hnot]
      have := (@List.range'_concat 1 g0 k).symm
      simpa using this
    rw [he]
    have := ih (k + 1)
    rw [show g0 + (k + 1) = g0 + k + 1 by omega] at this
    rw [this]
    congr 1
    omega

theorem foldl_uintInc (l : List Nat) :
    ∀ a, a + l.length < UINT_SIZE → l.foldl (fun idle _ => uintInc idle) a = a + l.length := by
  induction l with
  | nil => intro a _; rfl
  | cons x xs ih =>
    intro a h
    simp only [List.length_cons] at h
    rw [List.foldl_cons, uintInc_of_lt a (by omega), ih (a + 1) (by omega)]
    simp only [List.length_cons]
    omega

theorem World.start_countInv (w : World τ El) (n : Int) (h : FreshInv w) (h0 : 0 ≤ n)
    (hn : n < 2 ^ 31) : CountInv (w.start n) := by
  obtain ⟨hos, hth, hidle, hcur, hmax, hd⟩ := h
  have hS : toSizeT n = n.toNat := toSizeT_of_nonneg n h0 (by omega)
  have hU : toUint n = n.toNat := toUint_of_nonneg n h0 (by omega)
  have hN : n.toNat < 2 ^ 31 := by omega
  have hthreads : (List.range' w.generateId_ n.toNat).foldl emplace w.pool.threads_
      = List.range' w.generateId_ n.toNat := by
    rw [hth]
    have := foldl_emplace_range w.generateId_ n.toNat 0
    simpa using this
  have hlen : (List.range' w.generateId_ n.toNat).length = n.toNat := List.length_range' _ _ _
  have hfold : (List.range' w.generateId_ n.toNat).foldl (fun idle _ => uintInc idle) 0
      = n.toNat := by
    have := foldl_uintInc (List.range' w.generateId_ n.toNat) 0
      (by rw [hlen]; unfold UINT_SIZE; omega)
    rw [this, hlen]
    omega
  unfold CountInv
  simp only [World.start, hS, hU, hthreads, hos, hidle, List.nil_append]
  have ci := countIdle_append_atLock [] (List.range' w.generateId_ n.toNat)
  have cl := countLive_append_atLock [] (List.range' w.generateId_ n.toNat)
  simp only [List.nil_append, hlen] at ci cl
  rw [ci, cl, hfold]
  refine ⟨by simp [countIdle], by simp [countLive], ?_, Or.inl trivial, hmax, ?_⟩
  · simp only [countLive, List.map_nil, List.sum_nil]
    unfold UINT_SIZE
    omega
  · intro _
    exact Nat.le_max_right _ _

theorem countIdle_set_pc (l : List OsThread) (i : Nat) (t : OsThread) (pc : Pc)
    (h : l[i]? = some t) :
    countIdle (l.set i { t with pc := pc }) + t.pc.idleWeight = countIdle l + pc.idleWeight :=
  countIdle_set l i t { t with pc := pc } h

theorem countLive_set_pc (l : List OsThread) (i : Nat) (t : OsThread) (pc : Pc)
    (h : l[i]? = some t) :
    countLive (l.set i { t with pc := pc }) + t.pc.liveWeight = countLive l + pc.liveWeight :=
  countLive_set l i t { t with pc := pc } h

theorem World.afterLocked_whileQueueEmpty_countInv (w : World τ El) (i : Nat) (t : OsThread)
    (threadId : Nat) (hi : w.osThreads[i]? = some t) (hw : t.pc.idleWeight = 1)
    (hl : t.pc.liveWeight = 1) (h : CountInv w) :
    CountInv (w.afterLocked i t (w.pool.whileQueueEmpty threadId)) := by
  obtain ⟨h1, h2, h3, h4, h5, h6⟩ := h
  rcases ThreadPool.whileQueueEmpty_cases w.pool threadId with
    ⟨hq, _, e⟩ | ⟨hq, _, _, e⟩ | ⟨hq, _, _, e⟩ | ⟨task, rest, hq, e⟩
  · rw [e]
    have ci := countIdle_set_pc w.osThreads i t Pc.exited hi
    have cl := countLive_set_pc w.osThreads i t Pc.exited hi
    rw [hw] at ci
    rw [hl] at cl
    change _ + 1 = _ + 1 at ci
    change _ + 1 = _ + 1 at cl
    refine ⟨?_, ?_, ?_, h4, h5, h6⟩
    · show w.pool.idleThreadSize_ = countIdle (w.osThreads.set i { t with pc := Pc.exited })
      omega
    · show w.pool.curThreadSize_ = countLive (w.osThreads.set i { t with pc := Pc.exited })
      omega
    · show countLive (w.osThreads.set i { t with pc := Pc.exited }) < UINT_SIZE
      omega
  · rw [e]
    have ci := countIdle_set_pc w.osThreads i t Pc.inWaitFor hi
    have cl := countLive_set_pc w.osThreads i t Pc.inWaitFor hi
    rw [hw] at ci
    rw [hl] at cl
    change _ + 1 = _ + 1 at ci
    change _ + 1 = _ + 1 at cl
    refine ⟨?_, ?_, ?_, h4, h5, h6⟩
    · show w.pool.idleThreadSize_ = countIdle (w.osThreads.set i { t with pc := Pc.inWaitFor })
      omega
    · show w.pool.curThreadSize_ = countLive (w.osThreads.set i { t with pc := Pc.inWaitFor })
      omega
    · show countLive (w.osThreads.set i { t with pc := Pc.inWaitFor }) < UINT_SIZE
      omega
  · rw [e]
    have ci := countIdle_set_pc w.osThreads i t Pc.inWait hi
    have cl := countLive_set_pc w.osThreads i t Pc.inWait hi
    rw [hw] at ci
    rw [hl] at cl
    change _ + 1 = _ + 1 at ci
    change _ + 1 = _ + 1 at cl
    refine ⟨?_, ?_, ?_, h4, h5, h6⟩
    · show w.pool.idleThreadSize_ = countIdle (w.osThreads.set i { t with pc := Pc.inWait })
      omega
    · show w.pool.curThreadSize_ = countLive (w.osThreads.set i { t with pc := Pc.inWait })
      omega
    · show countLive (w.osThreads.set i { t with pc := Pc.inWait }) < UINT_SIZE
      omega
  · rw [e]
    have ci := countIdle_set_pc w.osThreads i t (Pc.holding task) hi
    have cl := countLive_set_pc w.osThreads i t (Pc.holding task) hi
    rw [hw] at ci
    rw [hl] at cl
    change _ + 1 = _ + 0 at ci
    change _ + 1 = _ + 1 at cl
    have hpos : 0 < w.pool.idleThreadSize_ := by omega
    refine ⟨?_, ?_, ?_, h4, h5, h6⟩
    · show uintDec w.pool.idleThreadSize_
        = countIdle (w.osThreads.set i { t with pc := Pc.holding task })
      rw [uintDec_of_pos _ hpos]
      omega
    · show w.pool.curThreadSize_
        = countLive (w.osThreads.set i { t with pc := Pc.holding task })
      omega
    · show countLive (w.osThreads.set i { t with pc := Pc.holding task }) < UINT_SIZE
      omega

theorem World.afterLocked_afterWaitFor_countInv (w : World τ El) (i : Nat) (t : OsThread)
    (status : CvStatus) (idleSecs : Int) (hi : w.osThreads[i]? = some t)
    (hw : t.pc.idleWeight = 1) (hl : t.pc.liveWeight = 1) (h : CountInv w) :
    CountInv (w.afterLocked i t (w.pool.afterWaitFor t.threadId status idleSecs)) := by
  rcases ThreadPool.afterWaitFor_cases w.pool t.threadId status idleSecs with
    ⟨_, _, hgt, e⟩ | ⟨_, e⟩
  · obtain ⟨h1, h2, h3, h4, h5, h6⟩ := h
    rw [e]
    have ci := countIdle_set_pc w.osThreads i t Pc.retired hi
    have cl := countLive_set_pc w.osThreads i t Pc.retired hi
    rw [hw] at ci
    rw [hl] at cl
    change _ + 1 = _ + 0 at ci
    change _ + 1 = _ + 0 at cl
    have hpos : 0 < w.pool.idleThreadSize_ := by omega
    have hposc : 0 < w.pool.curThreadSize_ := by omega
    refine ⟨?_, ?_, ?_, h4, h5, ?_⟩
    · show uintDec w.pool.idleThreadSize_
        = countIdle (w.osThreads.set i { t with pc := Pc.retired })
      rw [uintDec_of_pos _ hpos]
      omega
    · show uintDec w.pool.curThreadSize_
        = countLive (w.osThreads.set i { t with pc := Pc.retired })
      rw [uintDec_of_pos _ hposc]
      omega
    · show countLive (w.osThreads.set i { t with pc := Pc.retired }) < UINT_SIZE
      omega
    · intro hm
      have := h6 hm
      show uintDec w.pool.curThreadSize_ ≤ max w.pool.maxThreadSize_ w.pool.initThreadSize_
      rw [uintDec_of_pos _ hposc]
      omega
  · rw [e]
    exact World.afterLocked_whileQueueEmpty_countInv w i t _ hi hw hl h

theorem World.step_countInv (w w1 : World τ El) (a : Action) (h : CountInv w)
    (ha : ∀ n, a ≠ Action.start n) (hs : w.step a = some w1) : CountInv w1 := by
  rcases World.step_api w w1 a hs with ⟨i, rfl⟩ | ⟨i, st, d, rfl⟩ | ⟨i, rfl⟩ | ⟨_, hnd, hapi⟩
  · obtain ⟨t, _, hi, hpc, rfl⟩ := World.step_lock w w1 i hs
    exact World.afterLocked_whileQueueEmpty_countInv w i t _ hi (by rw [hpc]; rfl)
      (by rw [hpc]; rfl) h
  · obtain ⟨t, _, hi, hc⟩ := World.step_wake w w1 i st d hs
    rcases hc with ⟨hpc, rfl⟩ | ⟨hpc, rfl⟩
    · exact World.afterLocked_afterWaitFor_countInv w i t st d hi (by rw [hpc]; rfl)
        (by rw [hpc]; rfl) h
    · exact World.afterLocked_whileQueueEmpty_countInv w i t _ hi (by rw [hpc]; rfl)
        (by rw [hpc]; rfl) h
  · obtain ⟨t, task, _, hi, hpc, rfl⟩ := World.step_runTask w w1 i hs
    obtain ⟨h1, h2, h3, h4, h5, h6⟩ := h
    have hle := countIdle_le_countLive (w.osThreads.set i { t with pc := Pc.atLock })
    unfold World.runTask
    split
    · have ci := countIdle_set_pc w.osThreads i t Pc.atLock hi
      have cl := countLive_set_pc w.osThreads i t Pc.atLock hi
      rw [hpc] at ci cl
      change _ + 0 = _ + 1 at ci
      change _ + 1 = _ + 1 at cl
      refine ⟨?_, ?_, ?_, h4, h5, h6⟩
      · show uintInc w.pool.idleThreadSize_
          = countIdle (w.osThreads.set i { t with pc := Pc.atLock })
        rw [uintInc_of_lt _ (by omega)]
        omega
      · show w.pool.curThreadSize_ = countLive (w.osThreads.set i { t with pc := Pc.atLock })
        omega
      · show countLive (w.osThreads.set i { t with pc := Pc.atLock }) < UINT_SIZE
        omega
    · have ci := countIdle_set_pc w.osThreads i t Pc.threw hi
      have cl := countLive_set_pc w.osThreads i t Pc.threw hi
      rw [hpc] at ci cl
      change _ + 0 = _ + 0 at ci
      change _ + 1 = _ + 1 at cl
      refine ⟨?_, ?_, ?_, h4, h5, h6⟩
      · show w.pool.idleThreadSize_ = countIdle (w.osThreads.set i { t with pc := Pc.threw })
        omega
      · show w.pool.curThreadSize_ = countLive (w.osThreads.set i { t with pc := Pc.threw })
        omega
      · show countLive (w.osThreads.set i { t with pc := Pc.threw }) < UINT_SIZE
        omega
  · have hrun : w.pool.isPoolRunning_ = true := by
      rcases h.2.2.2.1 with hr | hd
      · exact hr
      · rw [hnd] at hd; exact absurd hd (by simp)
    rcases hapi with ⟨m, _, rfl⟩ | ⟨th, _, rfl⟩ | ⟨m, _, rfl⟩ | ⟨n, rfl, _⟩ | ⟨t, _, rfl⟩ | ⟨_, rfl⟩
    · have : w.pool.setMode m = w.pool := by
        simp [ThreadPool.setMode, ThreadPool.checkRunningState, hrun]
      unfold CountInv
      simp only [this]
      exact h
    · have : w.pool.setTaskQueueMaxThreshHold th = w.pool := by
        simp [ThreadPool.setTaskQueueMaxThreshHold, ThreadPool.checkRunningState, hrun]
      unfold CountInv
      simp only [this]
      exact h
    · have : w.pool.setMaxThreadSize m = w.pool := by
        simp [ThreadPool.setMaxThreadSize, ThreadPool.checkRunningState, hrun]
      unfold CountInv
      simp only [this]
      exact h
    · exact absurd rfl (ha n)
    · obtain ⟨h1, h2, h3, h4, h5, h6⟩ := h
      unfold World.submitTask
      split
      · exact ⟨h1, h2, h3, h4, h5, h6⟩
      · dsimp only
        split
        · rename_i hc
          obtain ⟨hm, _, hlt⟩ := hc
          have ci := countIdle_append_atLock w.osThreads [w.generateId_]
          have cl := countLive_append_atLock w.osThreads [w.generateId_]
          simp only [List.map_cons, List.map_nil, List.length_singleton] at ci cl
          have hle := countIdle_le_countLive w.osThreads
          have hlt2 : w.pool.curThreadSize_ < w.pool.maxThreadSize_ := hlt
          refine ⟨?_, ?_, ?_, h4, h5, ?_⟩
          · show uintInc w.pool.idleThreadSize_
              = countIdle (w.osThreads ++ [⟨w.generateId_, Pc.atLock⟩])
            rw [uintInc_of_lt _ (by omega), ci]
            omega
          · show uintInc w.pool.curThreadSize_
              = countLive (w.osThreads ++ [⟨w.generateId_, Pc.atLock⟩])
            rw [uintInc_of_lt _ (by omega), cl]
            omega
          · show countLive (w.osThreads ++ [⟨w.generateId_, Pc.atLock⟩]) < UINT_SIZE
            omega
          · intro _
            show uintInc w.pool.curThreadSize_
              ≤ max w.pool.maxThreadSize_ w.pool.initThreadSize_
            rw [uintInc_of_lt _ (by omega)]
            omega
        · exact ⟨h1, h2, h3, h4, h5, h6⟩
    · obtain ⟨h1, h2, h3, h4, h5, h6⟩ := h
      exact ⟨h1, h2, h3, Or.inr rfl, h5, h6⟩

theorem World.run_countInv (acts : List Action) :
    ∀ (w w1 : World τ El), CountInv w → usageAfterStart acts = true →
      w.run acts = some w1 → CountInv w1 := by
  induction acts with
  | nil =>
    intro w w1 h _ hr
    simp only [World.run] at hr
    cases hr
    exact h
  | cons a rest ih =>
    intro w w1 h hu hr
    simp only [World.run] at hr
    cases hs : w.step a with
    | none => rw [hs] at hr; exact absurd hr (by simp)
    | some w2 =>
      rw [hs] at hr
      have hne : ∀ n, a ≠ Action.start n := by
        intro n e
        subst e
        simp [usageAfterStart] at hu
      have hu2 : usageAfterStart rest = true := by
        cases a <;> first | exact hu | exact absurd rfl (hne _)
      exact ih w2 w1 (World.step_countInv w w2 a h hne hs) hu2 hr

theorem World.run_usage (acts : List Action) :
    ∀ (w w1 : World τ El), FreshInv w → usage acts = true →
      w.run acts = some w1 → FreshInv w1 ∨ CountInv w1 := by
  induction acts with
  | nil =>
    intro w w1 h _ hr
    simp only [World.run] at hr
    cases hr
    exact Or.inl h
  | cons a rest ih =>
    intro w w1 h hu hr
    simp only [World.run] at hr
    cases hs : w.step a with
    | none => rw [hs] at hr; exact absurd hr (by simp)
    | some w2 =>
      rw [hs] at hr
      obtain ⟨f1, f2, f3, f4, f5, f6⟩ := h
      rcases World.step_api w w2 a hs with ⟨i, rfl⟩ | ⟨i, st, d, rfl⟩ | ⟨i, rfl⟩ | ⟨_, _, hapi⟩
      · simp [usage, Action.isSetter] at hu
      · simp [usage, Action.isSetter] at hu
      · simp [usage, Action.isSetter] at hu
      · rcases hapi with ⟨m, rfl, rfl⟩ | ⟨th, rfl, rfl⟩ | ⟨m, rfl, rfl⟩ | ⟨n, rfl, rfl⟩ |
          ⟨t, rfl, rfl⟩ | ⟨rfl, rfl⟩
        · simp only [usage, Action.isSetter, Bool.true_and] at hu
          refine ih _ w1 ?_ hu hr
          simp only [ThreadPool.setMode]
          split
          · exact ⟨f1, f2, f3, f4, f5, f6⟩
          · exact ⟨f1, f2, f3, f4, f5, f6⟩
        · simp only [usage, Action.isSetter, Bool.true_and] at hu
          refine ih _ w1 ?_ hu hr
          simp only [ThreadPool.setTaskQueueMaxThreshHold]
          split
          · exact ⟨f1, f2, f3, f4, f5, f6⟩
          · exact ⟨f1, f2, f3, f4, f5, f6⟩
        · simp only [usage, Action.isSetter, Bool.and_eq_true, decide_eq_true_eq] at hu
          refine ih _ w1 ?_ hu.2 hr
          simp only [ThreadPool.setMaxThreadSize]
          split
          · exact ⟨f1, f2, f3, f4, f5, f6⟩
          · split
            · exact ⟨f1, f2, f3, f4, hu.1, f6⟩
            · exact ⟨f1, f2, f3, f4, f5, f6⟩
        · simp only [usage, Bool.and_eq_true, decide_eq_true_eq] at hu
          exact Or.inr (World.run_countInv rest _ w1
            (World.start_countInv w n ⟨f1, f2, f3, f4, f5, f6⟩ hu.1.1 hu.1.2) hu.2 hr)
        · simp [usage, Action.isSetter] at hu
        · simp [usage, Action.isSetter] at hu

theorem World.init_freshInv (tasks : List (RunOutcome τ El)) : FreshInv (World.init tasks) := by
  simp [FreshInv, World.init, ThreadPool.ctor, THREAD_MAX_SIZE, UINT_SIZE]

/-- C9, as the code has it.  In every state reached from a fresh pool by setters
(maximum below `2^32`), then one `start(n)` with `0 ≤ n < 2^31`, then
submissions, worker moves and the destructor: `0 ≤ idleThreadSize_ ≤
curThreadSize_`, and in cached mode `curThreadSize_` is at most the larger of
`maxThreadSize_` and `initThreadSize_`, hence at most `maxThreadSize_` when
the pool was started with at most `maxThreadSize_` threads. -/
theorem counter_invariant (tasks : List (RunOutcome τ El)) (acts : List Action)
    (w : World τ El) (hu : usage acts = true) (h : (World.init tasks).run acts = some w) :
    0 ≤ w.pool.idleThreadSize_ ∧
    w.pool.idleThreadSize_ ≤ w.pool.curThreadSize_ ∧
    (w.pool.poolMode_ = PoolMode.MODE_CACHED →
      w.pool.curThreadSize_ ≤ max w.pool.maxThreadSize_ w.pool.initThreadSize_) ∧
    (w.pool.poolMode_ = PoolMode.MODE_CACHED →
      w.pool.initThreadSize_ ≤ w.pool.maxThreadSize_ →
      w.pool.curThreadSize_ ≤ w.pool.maxThreadSize_) := by
  rcases World.run_usage acts _ w (World.init_freshInv tasks) hu h with hf | hc
  · obtain ⟨_, _, f3, f4, _, _⟩ := hf
    refine ⟨Nat.zero_le _, by omega, ?_, ?_⟩
    · intro _
      omega
    · intro _ _
      omega
  · obtain ⟨h1, h2, _, _, _, h6⟩ := hc
    have := countIdle_le_countLive w.osThreads
    refine ⟨Nat.zero_le _, by omega, h6, ?_⟩
    intro hm hle
    have := h6 hm
    omega

/-- C3 at the scenario of tasks `A` and `B` on one worker: accepted, dequeued and
executed are all `[A, B]`. -/
theorem fifo_dequeue_order_witness :
    worldAB.run actsRunAB = some ((worldAB.run actsRunAB).getD worldAB) ∧
    ((worldAB.run actsRunAB).getD worldAB).hist = ⟨[0, 1], [0, 1], [0, 1]⟩ ∧
    ((worldAB.run actsRunAB).getD worldAB).hist.dequeued
      <+: ((worldAB.run actsRunAB).getD worldAB).hist.accepted :=
  ⟨rfl, by decide,
   (fifo_dequeue_order [returnsULong 1, returnsULong 2] actsRunAB
     ((worldAB.run actsRunAB).getD worldAB) rfl).2.1⟩

/-- C9 at the calls of `main.cpp`: seven threads, all counted idle. -/
theorem counter_invariant_witness :
    usage actsMain = true ∧
    worldSeven.run actsMain = some ((worldSeven.run actsMain).getD worldSeven) ∧
    ((worldSeven.run actsMain).getD worldSeven).pool.curThreadSize_ = 7 ∧
    ((worldSeven.run actsMain).getD worldSeven).pool.idleThreadSize_
      ≤ ((worldSeven.run actsMain).getD worldSeven).pool.curThreadSize_ :=
  ⟨by decide, rfl, by decide,
   (counter_invariant (List.replicate 7 (returnsULong 0)) actsMain
     ((worldSeven.run actsMain).getD worldSeven) (by decide) rfl).2.1⟩

/-- C9 fails as stated.  In cached mode `start(11)` gives 11 threads with
`maxThreadSize_ = 10`; a second `start` leaves `idleThreadSize_ = 5` and
`curThreadSize_ = 1`; and a submission in cached mode before `start(1)` leaves
`idleThreadSize_ = 3` and `curThreadSize_ = 1`. -/
theorem counter_invariant_fails_on_misuse :
    (world123.run actsStartAboveMax).map
        (fun w => (w.pool.poolMode_, w.pool.curThreadSize_, w.pool.maxThreadSize_))
      = some (PoolMode.MODE_CACHED, 11, 10) ∧
    (world123.run actsStartTwice).map
        (fun w => (w.pool.idleThreadSize_, w.pool.curThreadSize_)) = some (5, 1) ∧
    (world123.run actsSubmitBeforeStart).map
        (fun w => (w.pool.idleThreadSize_, w.pool.curThreadSize_)) = some (3, 1) := by
  decide

/-! ## Retirement and shutdown -/

/-- The shutdown return (line 161) is taken exactly when the queue is empty and
the pool is not running; it only erases the thread's id. -/
theorem ThreadPool.whileQueueEmpty_exited_iff (s : ThreadPool) (threadId : Nat) :
    ((s.whileQueueEmpty threadId).2 = Pc.exited ↔
      s.taskQueue_ = [] ∧ s.isPoolRunning_ = false) ∧
    ((s.whileQueueEmpty threadId).2 = Pc.inWaitFor ↔
      s.taskQueue_ = [] ∧ s.isPoolRunning_ = true ∧ s.poolMode_ = PoolMode.MODE_CACHED) ∧
    (s.whileQueueEmpty threadId).2 ≠ Pc.retired ∧
    (∀ task rest, s.taskQueue_ = task :: rest →
      (s.whileQueueEmpty threadId).2 = Pc.holding task ∧
      (s.whileQueueEmpty threadId).1.taskQueue_ = rest) := by
  rcases ThreadPool.whileQueueEmpty_cases s threadId with
    ⟨hq, hr, e⟩ | ⟨hq, hr, hm, e⟩ | ⟨hq, hr, hm, e⟩ | ⟨task, rest, hq, e⟩
  · rw [e]
    simp [hq, hr]
  · rw [e]
    simp [hq, hr, hm]
  · rw [e]
    simp [hq, hr, hm]
  · rw [e]
    simp [hq]

/-- The retirement return (line 176) is taken exactly when `wait_for` returned
`timeout`, the thread has been idle for at least 60 seconds and
`curThreadSize_ > initThreadSize_`; it erases the id and decrements both
counters, and `curThreadSize_` stays at or above `initThreadSize_`.  Neither
the queue nor the running flag is looked at on this path. -/
theorem ThreadPool.afterWaitFor_retired_iff (s : ThreadPool) (threadId : Nat)
    (status : CvStatus) (idleSecs : Int) :
    ((s.afterWaitFor threadId status idleSecs).2 = Pc.retired ↔
      status = CvStatus.timeout ∧ idleSecs ≥ THREAD_MAX_IDLE_TIME ∧
        s.curThreadSize_ > s.initThreadSize_) ∧
    ((s.afterWaitFor threadId status idleSecs).2 = Pc.retired →
      (s.afterWaitFor threadId status idleSecs).1.threads_ = s.threads_.erase threadId ∧
      (s.afterWaitFor threadId status idleSecs).1.curThreadSize_ + 1 = s.curThreadSize_ ∧
      (s.afterWaitFor threadId status idleSecs).1.idleThreadSize_ = uintDec s.idleThreadSize_ ∧
      s.initThreadSize_ ≤ (s.afterWaitFor threadId status idleSecs).1.curThreadSize_) := by
  rcases ThreadPool.afterWaitFor_cases s threadId status idleSecs with
    ⟨h1, h2, h3, e⟩ | ⟨hn, e⟩
  · rw [e]
    have hpos : 0 < s.curThreadSize_ := by omega
    refine ⟨⟨fun _ => ⟨h1, h2, h3⟩, fun _ => rfl⟩, fun _ => ⟨rfl, ?_, rfl, ?_⟩⟩
    · show uintDec s.curThreadSize_ + 1 = s.curThreadSize_
      rw [uintDec_of_pos _ hpos]
      omega
    · show s.initThreadSize_ ≤ uintDec s.curThreadSize_
      rw [uintDec_of_pos _ hpos]
      omega
  · rw [e]
    have hne := (ThreadPool.whileQueueEmpty_exited_iff s threadId).2.2.1
    exact ⟨⟨fun h => absurd h hne, fun h => absurd h hn⟩, fun h => absurd h hne⟩

/-! ## Retirement and shutdown in runs -/

theorem ThreadPool.whileQueueEmpty_frame (s : ThreadPool) (threadId : Nat) :
    (s.whileQueueEmpty threadId).1.poolMode_ = s.poolMode_ ∧
    (s.whileQueueEmpty threadId).1.isPoolRunning_ = s.isPoolRunning_ ∧
    (s.whileQueueEmpty threadId).1.initThreadSize_ = s.initThreadSize_ ∧
    (s.whileQueueEmpty threadId).1.maxThreadSize_ = s.maxThreadSize_ ∧
    (s.whileQueueEmpty threadId).1.curThreadSize_ = s.curThreadSize_ ∧
    ((s.whileQueueEmpty threadId).2 = Pc.inWaitFor →
      s.poolMode_ = PoolMode.MODE_CACHED ∧ s.isPoolRunning_ = true ∧ s.taskQueue_ = []) ∧
    ((s.whileQueueEmpty threadId).2 = Pc.inWait →
      s.isPoolRunning_ = true ∧ s.taskQueue_ = []) := by
  rcases ThreadPool.whileQueueEmpty_cases s threadId with
    ⟨hq, hr, e⟩ | ⟨hq, hr, hm, e⟩ | ⟨hq, hr, hm, e⟩ | ⟨task, rest, hq, e⟩
  · rw [e]; simp
  · rw [e]; simp [hm, hr, hq]
  · rw [e]; simp [hr, hq]
  · rw [e]; simp

theorem ThreadPool.afterWaitFor_frame (s : ThreadPool) (threadId : Nat) (status : CvStatus)
    (idleSecs : Int) :
    (s.afterWaitFor threadId status idleSecs).1.poolMode_ = s.poolMode_ ∧
    (s.afterWaitFor threadId status idleSecs).1.isPoolRunning_ = s.isPoolRunning_ ∧
    ((s.afterWaitFor threadId status idleSecs).2 = Pc.inWaitFor →
      s.poolMode_ = PoolMode.MODE_CACHED ∧ s.isPoolRunning_ = true ∧ s.taskQueue_ = []) ∧
    ((s.afterWaitFor threadId status idleSecs).2 = Pc.inWait →
      s.isPoolRunning_ = true ∧ s.taskQueue_ = []) := by
  rcases ThreadPool.afterWaitFor_cases s threadId status idleSecs with ⟨_, _, _, e⟩ | ⟨_, e⟩
  · rw [e]; simp
  · rw [e]
    have := ThreadPool.whileQueueEmpty_frame s threadId
    exact ⟨this.1, this.2.1, this.2.2.2.2.2.1, this.2.2.2.2.2.2⟩

theorem ThreadPool.setTaskQueueMaxThreshHold_frame (s : ThreadPool) (threshHold : Int) :
    (s.setTaskQueueMaxThreshHold threshHold).poolMode_ = s.poolMode_ ∧
    (s.setTaskQueueMaxThreshHold threshHold).isPoolRunning_ = s.isPoolRunning_ := by
  unfold ThreadPool.setTaskQueueMaxThreshHold
  split <;> exact ⟨rfl, rfl⟩

theorem ThreadPool.setMaxThreadSize_frame (s : ThreadPool) (maxThreadSize : Nat) :
    (s.setMaxThreadSize maxThreadSize).poolMode_ = s.poolMode_ ∧
    (s.setMaxThreadSize maxThreadSize).isPoolRunning_ = s.isPoolRunning_ := by
  unfold ThreadPool.setMaxThreadSize
  split
  · exact ⟨rfl, rfl⟩
  · split <;> exact ⟨rfl, rfl⟩

theorem World.afterLocked_waitInv (w : World τ El) (i : Nat) (t : OsThread) (r : ThreadPool × Pc)
    (hm : r.1.poolMode_ = w.pool.poolMode_) (hr : r.1.isPoolRunning_ = w.pool.isPoolRunning_)
    (h1 : r.2 = Pc.inWaitFor → w.pool.poolMode_ = PoolMode.MODE_CACHED)
    (h2 : r.2 = Pc.inWaitFor ∨ r.2 = Pc.inWait → w.pool.isPoolRunning_ = true)
    (h : WaitInv w) : WaitInv (w.afterLocked i t r) := by
  constructor
  · intro x hx hpc
    show r.1.poolMode_ = PoolMode.MODE_CACHED
    rw [hm]
    rcases List.mem_or_eq_of_mem_set hx with hmem | rfl
    · exact h.1 x hmem hpc
    · exact h1 hpc
  · intro x hx hpc
    show r.1.isPoolRunning_ = true ∨ w.destructing = true
    rw [hr]
    rcases List.mem_or_eq_of_mem_set hx with hmem | rfl
    · exact h.2 x hmem hpc
    · exact Or.inl (h2 hpc)

theorem World.step_waitInv (w w1 : World τ El) (a : Action) (h : WaitInv w)
    (hs : w.step a = some w1) : WaitInv w1 := by
  rcases World.step_api w w1 a hs with ⟨i, rfl⟩ | ⟨i, st, d, rfl⟩ | ⟨i, rfl⟩ | ⟨_, hnd, hapi⟩
  · obtain ⟨t, _, hi, hpc, rfl⟩ := World.step_lock w w1 i hs
    have f := ThreadPool.whileQueueEmpty_frame w.pool t.threadId
    exact World.afterLocked_waitInv w i t _ f.1 f.2.1 (fun e => (f.2.2.2.2.2.1 e).1)
      (fun e => e.elim (fun e => (f.2.2.2.2.2.1 e).2.1) (fun e => (f.2.2.2.2.2.2 e).1)) h
  · obtain ⟨t, _, hi, hc⟩ := World.step_wake w w1 i st d hs
    rcases hc with ⟨hpc, rfl⟩ | ⟨hpc, rfl⟩
    · have f := ThreadPool.afterWaitFor_frame w.pool t.threadId st d
      exact World.afterLocked_waitInv w i t _ f.1 f.2.1 (fun e => (f.2.2.1 e).1)
        (fun e => e.elim (fun e => (f.2.2.1 e).2.1) (fun e => (f.2.2.2 e).1)) h
    · have f := ThreadPool.whileQueueEmpty_frame w.pool t.threadId
      exact World.afterLocked_waitInv w i t _ f.1 f.2.1 (fun e => (f.2.2.2.2.2.1 e).1)
        (fun e => e.elim (fun e => (f.2.2.2.2.2.1 e).2.1) (fun e => (f.2.2.2.2.2.2 e).1)) h
  · obtain ⟨t, task, _, hi, hpc, rfl⟩ := World.step_runTask w w1 i hs
    unfold World.runTask
    split
    · constructor
      · intro x hx hp
        rcases List.mem_or_eq_of_mem_set hx with hmem | rfl
        · exact h.1 x hmem hp
        · exact absurd hp (by simp)
      · intro x hx hp
        rcases List.mem_or_eq_of_mem_set hx with hmem | rfl
        · exact h.2 x hmem hp
        · exact absurd hp (by simp)
    · constructor
      · intro x hx hp
        rcases List.mem_or_eq_of_mem_set hx with hmem | rfl
        · exact h.1 x hmem hp
        · exact absurd hp (by simp)
      · intro x hx hp
        rcases List.mem_or_eq_of_mem_set hx with hmem | rfl
        · exact h.2 x hmem hp
        · exact absurd hp (by simp)
  · rcases hapi with ⟨m, _, rfl⟩ | ⟨th, _, rfl⟩ | ⟨m, _, rfl⟩ | ⟨n, _, rfl⟩ | ⟨t, _, rfl⟩ | ⟨_, rfl⟩
    · cases hr : w.pool.isPoolRunning_ with
      | true =>
        have : w.pool.setMode m = w.pool := by
          simp [ThreadPool.setMode, ThreadPool.checkRunningState, hr]
        unfold WaitInv
        simp only [this]
        exact h
      | false =>
        have none_parked : ∀ x ∈ w.osThreads, ¬ (x.pc = Pc.inWaitFor ∨ x.pc = Pc.inWait) := by
          intro x hx hp
          rcases h.2 x hx hp with h1 | h1
          · rw [hr] at h1; exact absurd h1 (by simp)
          · rw [hnd] at h1; exact absurd h1 (by simp)
        constructor
        · intro x hx hp
          exact absurd (Or.inl hp) (none_parked x hx)
        · intro x hx hp
          exact absurd hp (none_parked x hx)
    · have f := ThreadPool.setTaskQueueMaxThreshHold_frame w.pool th
      constructor
      · intro x hx hp
        show (w.pool.setTaskQueueMaxThreshHold th).poolMode_ = PoolMode.MODE_CACHED
        rw [f.1]
        exact h.1 x hx hp
      · intro x hx hp
        show (w.pool.setTaskQueueMaxThreshHold th).isPoolRunning_ = true ∨ w.destructing = true
        rw [f.2]
        exact h.2 x hx hp
    · have f := ThreadPool.setMaxThreadSize_frame w.pool m
      constructor
      · intro x hx hp
        show (w.pool.setMaxThreadSize m).poolMode_ = PoolMode.MODE_CACHED
        rw [f.1]
        exact h.1 x hx hp
      · intro x hx hp
        show (w.pool.setMaxThreadSize m).isPoolRunning_ = true ∨ w.destructing = true
        rw [f.2]
        exact h.2 x hx hp
    · constructor
      · intro x hx hp
        simp only [World.start, List.mem_append, List.mem_map] at hx
        rcases hx with hmem | ⟨id, _, rfl⟩
        · exact h.1 x hmem hp
        · exact absurd hp (by simp)
      · intro x hx hp
        exact Or.inl rfl
    · unfold World.submitTask
      split
      · exact h
      · dsimp only
        split
        · constructor
          · intro x hx hp
            simp only [List.mem_append, List.mem_singleton] at hx
            rcases hx with hmem | rfl
            · exact h.1 x hmem hp
            · exact absurd hp (by simp)
          · intro x hx hp
            simp only [List.mem_append, List.mem_singleton] at hx
            rcases hx with hmem | rfl
            · exact h.2 x hmem hp
            · exact absurd hp (by simp)
        · exact h
    · constructor
      · intro x hx hp
        exact h.1 x hx hp
      · intro x hx hp
        exact Or.inr rfl

theorem World.init_waitInv (tasks : List (RunOutcome τ El)) : WaitInv (World.init tasks) := by
  constructor <;> intro x hx <;> simp [World.init] at hx

theorem World.afterLocked_pc (w : World τ El) (i : Nat) (t : OsThread) (r : ThreadPool × Pc)
    (hi : w.osThreads[i]? = some t) :
    ((w.afterLocked i t r).osThreads[i]?).map (fun x => x.pc) = some r.2 := by
  have hlt : i < w.osThreads.length := (List.getElem?_eq_some.mp hi).1
  simp [World.afterLocked, List.getElem?_set, hlt]

theorem getElem?_append_of_some {α : Type} (l l2 : List α) (i : Nat) (t : α)
    (h : l[i]? = some t) : (l ++ l2)[i]? = some t := by
  have hlt : i < l.length := (List.getElem?_eq_some.mp h).1
  rw [List.getElem?_append_left hlt]
  exact h

/-- A call of the owner of the pool leaves every existing thread where it is. -/
theorem World.step_api_pc (w w1 : World τ El) (a : Action) (i : Nat) (t : OsThread)
    (hs : w.step a = some w1) (hi : w.osThreads[i]? = some t)
    (ha : (∀ j, a ≠ Action.lock j) ∧ (∀ j st d, a ≠ Action.wake j st d) ∧
      (∀ j, a ≠ Action.runTask j)) :
    w1.osThreads[i]? = some t := by
  rcases World.step_api w w1 a hs with ⟨j, rfl⟩ | ⟨j, st, d, rfl⟩ | ⟨j, rfl⟩ | ⟨_, _, hapi⟩
  · exact absurd rfl (ha.1 j)
  · exact absurd rfl (ha.2.1 j st d)
  · exact absurd rfl (ha.2.2 j)
  · rcases hapi with ⟨m, _, rfl⟩ | ⟨th, _, rfl⟩ | ⟨m, _, rfl⟩ | ⟨n, _, rfl⟩ | ⟨x, _, rfl⟩ | ⟨_, rfl⟩
    · exact hi
    · exact hi
    · exact hi
    · simp only [World.start]
      exact getElem?_append_of_some _ _ i t hi
    · unfold World.submitTask
      split
      · exact hi
      · dsimp only
        split
        · exact getElem?_append_of_some _ _ i t hi
        · exact hi
    · exact hi

theorem World.afterLocked_other (w : World τ El) (i j : Nat) (t tj : OsThread)
    (r : ThreadPool × Pc) (hne : j ≠ i) (hi : w.osThreads[i]? = some t) :
    (w.afterLocked j tj r).osThreads[i]? = some t := by
  simp only [World.afterLocked]
  rw [List.getElem?_set_ne hne]
  exact hi

theorem World.runTask_other (w : World τ El) (i j : Nat) (t tj : OsThread) (task : Nat)
    (hne : j ≠ i) (hi : w.osThreads[i]? = some t) :
    (w.runTask j tj task).osThreads[i]? = some t := by
  unfold World.runTask
  split
  · simp only
    rw [List.getElem?_set_ne hne]
    exact hi
  · simp only
    rw [List.getElem?_set_ne hne]
    exact hi

theorem World.runTask_pc (w : World τ El) (i : Nat) (t : OsThread) (task : Nat)
    (hi : w.osThreads[i]? = some t) :
    ((w.runTask i t task).osThreads[i]?).map (fun x => x.pc) = some Pc.atLock ∨
    ((w.runTask i t task).osThreads[i]?).map (fun x => x.pc) = some Pc.threw := by
  have hlt : i < w.osThreads.length := (List.getElem?_eq_some.mp hi).1
  unfold World.runTask
  split
  · left
    simp [List.getElem?_set, hlt]
  · right
    simp [List.getElem?_set, hlt]

/-- What holds of retirement in every run from a fresh pool: a thread retires
only out of `wait_for`, in cached mode, when `wait_for` returned `timeout`,
the thread was idle for at least 60 seconds and `curThreadSize_` exceeded
`initThreadSize_`; `curThreadSize_` drops by one and stays at or above
`initThreadSize_`. -/
theorem retirement_in_runs (tasks : List (RunOutcome τ El)) (acts : List Action)
    (w w1 : World τ El) (h : (World.init tasks).run acts = some w) (a : Action) (i : Nat)
    (t : OsThread) (hs : w.step a = some w1) (hi : w.osThreads[i]? = some t)
    (hbefore : t.pc ≠ Pc.retired)
    (hafter : (w1.osThreads[i]?).map (fun x => x.pc) = some Pc.retired) :
    (∃ idleSecs, a = Action.wake i CvStatus.timeout idleSecs ∧
      idleSecs ≥ THREAD_MAX_IDLE_TIME) ∧
    t.pc = Pc.inWaitFor ∧
    w.pool.poolMode_ = PoolMode.MODE_CACHED ∧
    w.pool.curThreadSize_ > w.pool.initThreadSize_ ∧
    w1.pool.curThreadSize_ + 1 = w.pool.curThreadSize_ ∧
    w1.pool.initThreadSize_ ≤ w1.pool.curThreadSize_ ∧
    w1.pool.threads_ = w.pool.threads_.erase t.threadId := by
  have hW : WaitInv w :=
    World.run_invariant WaitInv World.step_waitInv acts _ w (World.init_waitInv tasks) h
  have hmem : t ∈ w.osThreads := by
    obtain ⟨hlt, e⟩ := List.getElem?_eq_some.mp hi
    rw [← e]
    exact List.getElem_mem hlt
  have same_pc : w1.osThreads[i]? = some t → False := by
    intro e
    rw [e] at hafter
    simp only [Option.map_some', Option.some.injEq] at hafter
    exact hbefore hafter
  have not_retired := fun (threadId : Nat) =>
    (ThreadPool.whileQueueEmpty_exited_iff w.pool threadId).2.2.1
  cases a with
  | lock j =>
    obtain ⟨tj, _, hj, hpc, rfl⟩ := World.step_lock w w1 j hs
    by_cases hji : j = i
    · subst hji
      rw [World.afterLocked_pc w j tj _ hj] at hafter
      exact absurd (Option.some.inj hafter) (not_retired _)
    · exact absurd (World.afterLocked_other w i j t tj _ hji hi) same_pc
  | wake j st d =>
    obtain ⟨tj, _, hj, hc⟩ := World.step_wake w w1 j st d hs
    by_cases hji : j = i
    · subst hji
      have htj : tj = t := by
        rw [hj] at hi
        exact Option.some.inj hi
      subst htj
      rcases hc with ⟨hpc, rfl⟩ | ⟨hpc, rfl⟩
      · rw [World.afterLocked_pc w j tj _ hj] at hafter
        have hret := Option.some.inj hafter
        have key := ThreadPool.afterWaitFor_retired_iff w.pool tj.threadId st d
        obtain ⟨hst, hd, hgt⟩ := key.1.mp hret
        obtain ⟨k1, k2, _, k4⟩ := key.2 hret
        have hpos : 0 < w.pool.curThreadSize_ := by omega
        have hinit : (w.pool.afterWaitFor tj.threadId st d).1.initThreadSize_
            = w.pool.initThreadSize_ := by
          rcases ThreadPool.afterWaitFor_cases w.pool tj.threadId st d with
            ⟨_, _, _, e⟩ | ⟨hn, _⟩
          · rw [e]
          · exact absurd ⟨hst, hd, hgt⟩ hn
        subst hst
        refine ⟨⟨d, rfl, hd⟩, hpc, hW.1 tj hmem hpc, hgt, k2, ?_, k1⟩
        show (w.pool.afterWaitFor tj.threadId CvStatus.timeout d).1.initThreadSize_
          ≤ (w.pool.afterWaitFor tj.threadId CvStatus.timeout d).1.curThreadSize_
        rw [hinit]
        exact k4
      · rw [World.afterLocked_pc w j tj _ hj] at hafter
        exact absurd (Option.some.inj hafter) (not_retired _)
    · rcases hc with ⟨_, rfl⟩ | ⟨_, rfl⟩
      · exact absurd (World.afterLocked_other w i j t tj _ hji hi) same_pc
      · exact absurd (World.afterLocked_other w i j t tj _ hji hi) same_pc
  | runTask j =>
    obtain ⟨tj, task, _, hj, hpc, rfl⟩ := World.step_runTask w w1 j hs
    by_cases hji : j = i
    · subst hji
      rcases World.runTask_pc w j tj task hj with e | e
      · rw [e] at hafter
        exact absurd (Option.some.inj hafter) (by simp)
      · rw [e] at hafter
        exact absurd (Option.some.inj hafter) (by simp)
    · exact absurd (World.runTask_other w i j t tj task hji hi) same_pc
  | setMode m =>
    exact absurd (World.step_api_pc w w1 _ i t hs hi (by simp)) same_pc
  | setTaskQueueMaxThreshHold th =>
    exact absurd (World.step_api_pc w w1 _ i t hs hi (by simp)) same_pc
  | setMaxThreadSize m =>
    exact absurd (World.step_api_pc w w1 _ i t hs hi (by simp)) same_pc
  | start n =>
    exact absurd (World.step_api_pc w w1 _ i t hs hi (by simp)) same_pc
  | submitTask x =>
    exact absurd (World.step_api_pc w w1 _ i t hs hi (by simp)) same_pc
  | destroy =>
    exact absurd (World.step_api_pc w w1 _ i t hs hi (by simp)) same_pc

theorem ThreadPool.afterWaitFor_exited (s : ThreadPool) (threadId : Nat) (status : CvStatus)
    (idleSecs : Int) (h : (s.afterWaitFor threadId status idleSecs).2 = Pc.exited) :
    s.afterWaitFor threadId status idleSecs = s.whileQueueEmpty threadId := by
  rcases ThreadPool.afterWaitFor_cases s threadId status idleSecs with ⟨_, _, _, e⟩ | ⟨_, e⟩
  · rw [e] at h
    exact absurd h (by simp)
  · exact e

theorem ThreadPool.whileQueueEmpty_exited (s : ThreadPool) (threadId : Nat)
    (h : (s.whileQueueEmpty threadId).2 = Pc.exited) :
    s.taskQueue_ = [] ∧ s.isPoolRunning_ = false ∧
    (s.whileQueueEmpty threadId).1 = { s with threads_ := s.threads_.erase threadId } := by
  rcases ThreadPool.whileQueueEmpty_cases s threadId with
    ⟨hq, hr, e⟩ | ⟨hq, hr, hm, e⟩ | ⟨hq, hr, hm, e⟩ | ⟨task, rest, hq, e⟩
  · exact ⟨hq, hr, by rw [e]⟩
  · rw [e] at h; exact absurd h (by simp)
  · rw [e] at h; exact absurd h (by simp)
  · rw [e] at h; exact absurd h (by simp)

/-- What holds of the shutdown return in every run from a fresh pool: a thread
leaves at line 161 only in a state where the queue is empty and the running
flag is cleared; it erases its id and touches nothing else of the pool, and at
that moment every task accepted so far has been dequeued. -/
theorem shutdown_exit_in_runs (tasks : List (RunOutcome τ El)) (acts : List Action)
    (w w1 : World τ El) (h : (World.init tasks).run acts = some w) (a : Action) (i : Nat)
    (t : OsThread) (hs : w.step a = some w1) (hi : w.osThreads[i]? = some t)
    (hbefore : t.pc ≠ Pc.exited)
    (hafter : (w1.osThreads[i]?).map (fun x => x.pc) = some Pc.exited) :
    w.pool.taskQueue_ = [] ∧ w.pool.isPoolRunning_ = false ∧
    w1.pool = { w.pool with threads_ := w.pool.threads_.erase t.threadId } ∧
    w1.hist.accepted = w1.hist.dequeued := by
  have hF : FifoInv w :=
    World.run_invariant FifoInv World.step_fifo acts _ w (World.init_fifo tasks) h
  have hF1 : FifoInv w1 := World.step_fifo w w1 a hF hs
  have same_pc : w1.osThreads[i]? = some t → False := by
    intro e
    rw [e] at hafter
    simp only [Option.map_some', Option.some.injEq] at hafter
    exact hbefore hafter
  have finish : ∀ r : ThreadPool × Pc, w1 = w.afterLocked i t r →
      r = w.pool.whileQueueEmpty t.threadId → r.2 = Pc.exited →
      w.pool.taskQueue_ = [] ∧ w.pool.isPoolRunning_ = false ∧
      w1.pool = { w.pool with threads_ := w.pool.threads_.erase t.threadId } ∧
      w1.hist.accepted = w1.hist.dequeued := by
    intro r e1 e2 e3
    subst e2
    obtain ⟨k1, k2, k3⟩ := ThreadPool.whileQueueEmpty_exited w.pool t.threadId e3
    have hp : w1.pool = { w.pool with threads_ := w.pool.threads_.erase t.threadId } := by
      rw [e1]
      exact k3
    refine ⟨k1, k2, hp, ?_⟩
    have := hF1
    unfold FifoInv at this
    rw [this, hp]
    show w1.hist.dequeued ++ w.pool.taskQueue_ = w1.hist.dequeued
    rw [k1, List.append_nil]
  cases a with
  | lock j =>
    obtain ⟨tj, _, hj, hpc, e⟩ := World.step_lock w w1 j hs
    by_cases hji : j = i
    · subst hji
      have htj : tj = t := by
        rw [hj] at hi
        exact Option.some.inj hi
      subst htj
      rw [e, World.afterLocked_pc w j tj _ hj] at hafter
      exact finish _ e rfl (Option.some.inj hafter)
    · rw [e] at same_pc
      exact absurd (World.afterLocked_other w i j t tj _ hji hi) same_pc
  | wake j st d =>
    obtain ⟨tj, _, hj, hc⟩ := World.step_wake w w1 j st d hs
    by_cases hji : j = i
    · subst hji
      have htj : tj = t := by
        rw [hj] at hi
        exact Option.some.inj hi
      subst htj
      rcases hc with ⟨hpc, e⟩ | ⟨hpc, e⟩
      · rw [e, World.afterLocked_pc w j tj _ hj] at hafter
        have hx := Option.some.inj hafter
        have e2 := ThreadPool.afterWaitFor_exited w.pool tj.threadId st d hx
        exact finish _ e e2 hx
      · rw [e, World.afterLocked_pc w j tj _ hj] at hafter
        exact finish _ e rfl (Option.some.inj hafter)
    · rcases hc with ⟨_, e⟩ | ⟨_, e⟩
      · rw [e] at same_pc
        exact absurd (World.afterLocked_other w i j t tj _ hji hi) same_pc
      · rw [e] at same_pc
        exact absurd (World.afterLocked_other w i j t tj _ hji hi) same_pc
  | runTask j =>
    obtain ⟨tj, task, _, hj, hpc, e⟩ := World.step_runTask w w1 j hs
    by_cases hji : j = i
    · subst hji
      rw [e] at hafter
      rcases World.runTask_pc w j tj task hj with e2 | e2
      · rw [e2] at hafter
        exact absurd (Option.some.inj hafter) (by simp)
      · rw [e2] at hafter
        exact absurd (Option.some.inj hafter) (by simp)
    · rw [e] at same_pc
      exact absurd (World.runTask_other w i j t tj task hji hi) same_pc
  | setMode m =>
    exact absurd (World.step_api_pc w w1 _ i t hs hi (by simp)) same_pc
  | setTaskQueueMaxThreshHold th =>
    exact absurd (World.step_api_pc w w1 _ i t hs hi (by simp)) same_pc
  | setMaxThreadSize m =>
    exact absurd (World.step_api_pc w w1 _ i t hs hi (by simp)) same_pc
  | start n =>
    exact absurd (World.step_api_pc w w1 _ i t hs hi (by simp)) same_pc
  | submitTask x =>
    exact absurd (World.step_api_pc w w1 _ i t hs hi (by simp)) same_pc
  | destroy =>
    exact absurd (World.step_api_pc w w1 _ i t hs hi (by simp)) same_pc

/-- C8, the defect.  After `actsExtraParked` thread 1 is parked in `wait_for`.
In the first run a task is queued and the pool is running when `wait_for`
returns `timeout`: thread 1 retires (its id erased, both counters
decremented) and the task stays queued.  In the second run the destructor has
cleared the running flag: thread 1 still leaves by the retirement path. -/
theorem retire_without_recheck :
    (world123.run actsExtraParked).map (fun w => (w.osThreads.map (fun t => t.pc),
        w.pool.threads_, w.pool.curThreadSize_, w.pool.idleThreadSize_, w.pool.initThreadSize_))
      = some ([Pc.holding 0, Pc.inWaitFor], [0, 1], 2, 1, 1) ∧
    (world123.run actsRetireQueued).map (fun w => (w.osThreads.map (fun t => t.pc),
        w.pool.threads_, w.pool.curThreadSize_, w.pool.idleThreadSize_, w.pool.taskQueue_,
        w.pool.isPoolRunning_))
      = some ([Pc.holding 0, Pc.retired], [0], 1, 0, [2], true) ∧
    (world123.run actsRetireStopped).map (fun w => (w.osThreads.map (fun t => t.pc),
        w.pool.threads_, w.pool.curThreadSize_, w.pool.idleThreadSize_, w.pool.taskQueue_,
        w.pool.isPoolRunning_))
      = some ([Pc.holding 0, Pc.retired], [0], 1, 0, [], false) :=
  ⟨rfl, rfl, rfl⟩

/-- C10, the defect.  In `actsRetireLast` the only thread is parked in
`wait_for` when task 1 is accepted and the destructor starts; `wait_for`
returns `timeout` and the thread erases its id while task 1 is in the queue:
the worker set is empty, and task 1 was accepted but never dequeued. -/
theorem id_removed_with_task_queued :
    (world123.run actsRetireLast).map (fun w => (w.pool.threads_, w.osThreads.map (fun t => t.pc),
        w.pool.taskQueue_, w.pool.isPoolRunning_, w.destructing, w.hist.accepted,
        w.hist.dequeued))
      = some ([], [Pc.retired], [1], false, true, [0, 1], [0]) :=
  rfl

end Theorems

end ThreadPoolModel
